import Mathlib

/-!
# CoreAudio output plugin (`op/coreaudio.c`): handoff channel, device negotiation, volume

A shallow embedding of the C functions of `op/coreaudio.c`.

* The file-scope variables of the handoff channel (`coreaudio_buffer`,
  `coreaudio_buffer_size`, `stopping`, `dropping`, `partial`) are the fields of `State`.
  `partial` is a keyword of Lean, so the field is called `partial_`.
* `UInt32` values are natural numbers reduced `% 2 ^ 32`; an `int` argument is an `Int`;
  a `char *` is an address (an `Int`) into a byte memory `mem`.
* Calls to the pthread primitives and to the render unit are recorded, in call order, in
  the ghost field `trace`.
* A finite `Float64` or `Float32` value is the rational it denotes; every floating-point
  operation is the exact operation followed by rounding to the format (`f64_round`,
  `f32_round`).
* `pthread_cond_wait` blocks. The callback is therefore split at the wait into
  `coreaudio_play_callback_publish` and `coreaudio_play_callback_wake`; the ghost field
  `cb_waiting` records that the callback thread is blocked between the two.
-/

namespace CoreAudio

/-! ## Data model -/

/-- The two `OSStatus` values `coreaudio_play_callback` returns. -/
inductive OSStatus where
  | noErr
  | kAudioUnitErr_NoConnection
  deriving DecidableEq, Repr

/-- Calls to the synchronisation primitives and to the render unit (ghost trace). -/
inductive Event where
  | mutex_lock
  | mutex_unlock
  | cond_signal
  | cond_wait
  | unit_start
  | unit_stop
  | unit_uninitialize
  | cond_destroy
  | mutex_destroy
  deriving DecidableEq, Repr

/-- Byte memory: address to byte value. -/
abbrev Memory := Int → Nat

/-- The file-scope variables of the handoff channel, the memory they point into, and the
ghost fields `trace` and `cb_waiting`. -/
structure State where
  /-- Variable `static UInt32 coreaudio_buffer_size`. -/
  coreaudio_buffer_size : Nat
  /-- Variable `static char *coreaudio_buffer`. -/
  coreaudio_buffer : Int
  /-- Variable `static bool stopping`. -/
  stopping : Bool
  /-- Variable `static bool dropping`. -/
  dropping : Bool
  /-- Variable `static bool partial`. -/
  partial_ : Bool
  /-- The memory `coreaudio_buffer` points into. -/
  mem : Memory
  /-- Ghost: the pthread and render-unit calls issued so far, oldest first. -/
  trace : List Event
  /-- Ghost: the callback thread is blocked in `pthread_cond_wait`. -/
  cb_waiting : Bool

/-- Conversion of an `int` to `size_t` (64 bits). -/
def to_size_t (n : Int) : Nat := (n % 2 ^ 64).toNat

/-- Conversion of an `int` to `UInt32`, and `UInt32` subtraction: `a -= cnt`. -/
def u32_sub (a : Nat) (cnt : Int) : Nat := (((a : Int) - cnt) % 2 ^ 32).toNat

/-- Conversion of a `UInt32` to `int` (two's complement). -/
def u32_to_int (a : Nat) : Int := if a % 2 ^ 32 < 2 ^ 31 then (a % 2 ^ 32 : Nat) else (a % 2 ^ 32 : Nat) - 2 ^ 32

/-- The C library `memcpy(dst, src, n)`; `src` gives the bytes of the source buffer by index. -/
def memcpy (mem : Memory) (dst : Int) (src : Nat → Nat) (n : Nat) : Memory :=
  fun a => if dst ≤ a ∧ a < dst + n then src (a - dst).toNat else mem a

/-- The C library `memset(dst, c, n)`. -/
def memset (mem : Memory) (dst : Int) (c : Nat) (n : Nat) : Memory :=
  fun a => if dst ≤ a ∧ a < dst + n then c else mem a

/-- Append calls to the ghost trace. -/
def State.emit (s : State) (es : List Event) : State :=
  { s with trace := s.trace ++ es }

/-- Number of `pthread_cond_signal` calls recorded in a state. -/
def State.signals (s : State) : Nat := s.trace.count Event.cond_signal

/-! ## The render callback -/

/-- First half of `coreaudio_play_callback`, up to and including the call of
`pthread_cond_wait`. `lock_ok` is whether `pthread_mutex_lock` returned 0. The result is
`some status` when the callback returns without waiting, `none` when it blocks. -/
def coreaudio_play_callback_publish (s : State) (lock_ok : Bool) (mData : Int)
    (mDataByteSize : Nat) : State × Option OSStatus :=
  -- bool ret = true;  locked = stopping ? 0 : !pthread_mutex_lock(&mutex);
  if s.stopping then
    (s, some OSStatus.kAudioUnitErr_NoConnection)
  else
    let s1 := s.emit [Event.mutex_lock]
    if lock_ok then
      let s2 := { s1 with coreaudio_buffer := mData
                          coreaudio_buffer_size := mDataByteSize % 2 ^ 32 }
      let s3 := s2.emit [Event.cond_signal, Event.cond_wait]
      ({ s3 with cb_waiting := true }, none)
    else
      (s1, some OSStatus.kAudioUnitErr_NoConnection)

/-- Second half of `coreaudio_play_callback`: from the return of `pthread_cond_wait` on. -/
def coreaudio_play_callback_wake (s : State) : State × OSStatus :=
  let ret := s.dropping
  let s1 := { s with dropping := false }
  let s2 := s1.emit [Event.mutex_unlock]
  ({ s2 with cb_waiting := false },
    if ret then OSStatus.kAudioUnitErr_NoConnection else OSStatus.noErr)

/-- The whole of `coreaudio_play_callback`; `env` is what the other threads do to the state
while the callback is blocked in `pthread_cond_wait`. -/
def coreaudio_play_callback (s : State) (lock_ok : Bool) (mData : Int) (mDataByteSize : Nat)
    (env : State → State) : State × OSStatus :=
  match coreaudio_play_callback_publish s lock_ok mData mDataByteSize with
  | (s1, some st) => (s1, st)
  | (s1, none) => coreaudio_play_callback_wake (env s1)

/-! ## Producer side -/

/-- The function `coreaudio_flush_buffer(drop)`. `lock_ok` is whether `pthread_mutex_lock`
returned 0. -/
def coreaudio_flush_buffer (s : State) (lock_ok : Bool) (drop : Bool) : State :=
  let s1 := { s with stopping := !drop }
  let s2 := s1.emit [Event.mutex_lock]
  let s3 :=
    if s2.partial_ then
      let m := if !drop then memset s2.mem s2.coreaudio_buffer 0 s2.coreaudio_buffer_size
               else s2.mem
      { s2 with mem := m, partial_ := false }
    else s2
  let s4 :=
    if s3.coreaudio_buffer_size ≠ 0 then
      { s3 with dropping := drop, coreaudio_buffer_size := 0 }
    else s3
  let s5 := s4.emit [Event.cond_signal]
  if lock_ok then s5.emit [Event.mutex_unlock] else s5

/-- The function `coreaudio_close`; returns `OP_ERROR_SUCCESS` (0). -/
def coreaudio_close (s : State) (lock_ok : Bool) : State × Int :=
  let s1 := coreaudio_flush_buffer s lock_ok false
  let s2 := s1.emit [Event.unit_stop, Event.unit_uninitialize, Event.cond_destroy,
    Event.mutex_destroy]
  ({ s2 with stopping := false }, 0)

/-- The function `coreaudio_drop`; returns `OP_ERROR_SUCCESS` (0). -/
def coreaudio_drop (s : State) (lock_ok : Bool) : State × Int :=
  (coreaudio_flush_buffer s lock_ok true, 0)

/-- The function `coreaudio_write(buf, cnt)`; `buf` gives the bytes of the caller's buffer
by index. -/
def coreaudio_write (s : State) (buf : Nat → Nat) (cnt : Int) : State × Int :=
  let s1 := { s with mem := memcpy s.mem s.coreaudio_buffer buf (to_size_t cnt) }
  let s2 := { s1 with coreaudio_buffer_size := u32_sub s1.coreaudio_buffer_size cnt }
  if s2.coreaudio_buffer_size = 0 then
    let s3 := s2.emit [Event.mutex_lock, Event.cond_signal, Event.mutex_unlock]
    ({ s3 with partial_ := false }, cnt)
  else
    ({ s2 with coreaudio_buffer := s2.coreaudio_buffer + cnt, partial_ := true }, cnt)

/-- The function `coreaudio_pause`. `stop_ok` is whether `AudioOutputUnitStop` returned
`noErr`; the result is `OP_ERROR_SUCCESS` (0) or `-OP_ERROR_ERRNO` (-1). -/
def coreaudio_pause (s : State) (lock_ok : Bool) (stop_ok : Bool) : State × Int :=
  let s1 := coreaudio_flush_buffer s lock_ok false
  let s2 := s1.emit [Event.unit_stop]
  (s2, if stop_ok then 0 else -1)

/-- The function `coreaudio_unpause`. `start_ok` is whether `AudioOutputUnitStart` returned
`noErr`. -/
def coreaudio_unpause (s : State) (start_ok : Bool) : State × Int :=
  let s1 := { s with stopping := false }
  let s2 := s1.emit [Event.unit_start]
  (s2, if start_ok then 0 else -1)

/-- The function `coreaudio_buffer_space`; `env` is what the other threads do to the state
while the caller is blocked in `pthread_cond_wait`. -/
def coreaudio_buffer_space (s : State) (env : State → State) : State × Int :=
  let s1 := s.emit [Event.mutex_lock]
  let s2 := if s1.coreaudio_buffer_size = 0 then env (s1.emit [Event.cond_wait]) else s1
  let s3 := s2.emit [Event.mutex_unlock]
  (s3, u32_to_int s3.coreaudio_buffer_size)

/-! ## Sequences of calls -/

/-- One call of `coreaudio_write`: the caller's buffer and the count. -/
abbrev WriteCall := (Nat → Nat) × Int

/-- The calls `coreaudio_write(buf1, n1)`, ..., `coreaudio_write(bufk, nk)` in order. -/
def write_seq (s : State) : List WriteCall → State
  | [] => s
  | w :: ws => write_seq (coreaudio_write s w.1 w.2).1 ws

/-- Number of calls of the sequence across which `coreaudio_buffer_size` goes from non-zero
to zero. -/
def drain_count (s : State) : List WriteCall → Nat
  | [] => 0
  | w :: ws =>
    (if s.coreaudio_buffer_size ≠ 0 ∧ (coreaudio_write s w.1 w.2).1.coreaudio_buffer_size = 0
      then 1 else 0) + drain_count (coreaudio_write s w.1 w.2).1 ws

/-- The atomic steps of the two threads: the producer's calls, and the two halves of the
callback. -/
inductive Op where
  | write (buf : Nat → Nat) (cnt : Int)
  | buffer_space
  | pause (lock_ok stop_ok : Bool)
  | unpause (start_ok : Bool)
  | drop (lock_ok : Bool)
  | close (lock_ok : Bool)
  | callback_publish (lock_ok : Bool) (mData : Int) (mDataByteSize : Nat)
  | callback_wake

/-- The step is a call of `coreaudio_drop`. -/
def Op.is_drop : Op → Bool
  | Op.drop _ => true
  | _ => false

/-- The step is a wake of the callback. -/
def Op.is_wake : Op → Bool
  | Op.callback_wake => true
  | _ => false

/-- Effect of one step; the second component is the status the callback returns when the
step is a wake. `Op.buffer_space` is a call of `coreaudio_buffer_space` that returns without
waiting: `enabled` admits it only on a slot with capacity, where the call does not reach
`pthread_cond_wait` and the `env` argument is not used. A call on an empty slot blocks the
producer, which takes no step until the callback has published. -/
def step (s : State) : Op → State × Option OSStatus
  | Op.write buf cnt => ((coreaudio_write s buf cnt).1, none)
  | Op.buffer_space => ((coreaudio_buffer_space s id).1, none)
  | Op.pause lock_ok stop_ok => ((coreaudio_pause s lock_ok stop_ok).1, none)
  | Op.unpause start_ok => ((coreaudio_unpause s start_ok).1, none)
  | Op.drop lock_ok => ((coreaudio_drop s lock_ok).1, none)
  | Op.close lock_ok => ((coreaudio_close s lock_ok).1, none)
  | Op.callback_publish lock_ok mData n =>
    ((coreaudio_play_callback_publish s lock_ok mData n).1, none)
  | Op.callback_wake =>
    ((coreaudio_play_callback_wake s).1, some (coreaudio_play_callback_wake s).2)

/-- A step can be taken: the callback thread wakes only when it is blocked and is entered
only when it is not, the producer keeps the contract of `coreaudio_write` (a count
between 0 and the remaining capacity), and `coreaudio_buffer_space` returns only when the
slot has capacity. -/
def enabled (s : State) : Op → Bool
  | Op.write _ cnt => decide (0 ≤ cnt ∧ cnt ≤ (s.coreaudio_buffer_size : Int))
  | Op.buffer_space => decide (s.coreaudio_buffer_size ≠ 0)
  | Op.callback_publish _ _ _ => !s.cb_waiting
  | Op.callback_wake => s.cb_waiting
  | _ => true

/-- Run a schedule; the result is the final state and the statuses returned by the
callback wakes, in order. -/
def run (s : State) : List Op → State × List OSStatus
  | [] => (s, [])
  | op :: ops =>
    let r := run (step s op).1 ops
    (r.1, (step s op).2.toList ++ r.2)

/-- Every step of the schedule is enabled when it is taken. -/
def valid (s : State) : List Op → Bool
  | [] => true
  | op :: ops => enabled s op && valid (step s op).1 ops

/-! ## Binary floating point

A finite floating-point value is modelled by the rational it denotes, and an arithmetic
operation by the exact operation followed by rounding to the format. Infinities and NaN
are outside the model. -/

/-- Position of the leading binary digit of a natural number, by halving `fuel` times at
most. -/
def log2_fuel : Nat → Nat → Nat
  | 0, _ => 0
  | fuel + 1, n => if n < 2 then 0 else log2_fuel fuel (n / 2) + 1

/-- The number `⌊log2 n⌋` for `n ≥ 1`. -/
def floor_log2 (n : Nat) : Nat := log2_fuel n n

/-- The power `2 ^ k` for an integer exponent. -/
def pow2 (k : Int) : ℚ :=
  if 0 ≤ k then ((2 ^ k.toNat : Nat) : ℚ) else 1 / ((2 ^ (-k).toNat : Nat) : ℚ)

/-- The binary exponent of a non-zero rational: the `e` with `2 ^ e ≤ |q| < 2 ^ (e + 1)`. -/
def binade (q : ℚ) : Int :=
  let a : Int := (floor_log2 q.num.natAbs : Int) - (floor_log2 q.den : Int)
  if pow2 a ≤ |q| then a else a - 1

/-- Rounding to the nearest integer, ties to the even one. -/
def round_half_even (m : ℚ) : Int :=
  let f := ⌊m⌋
  let r := m - f
  if r < 1 / 2 then f else if 1 / 2 < r then f + 1 else if f % 2 = 0 then f else f + 1

/-- IEEE 754 binary64 rounding, to nearest with ties to even: a significand of 53 bits and
a least exponent of -1022. Results of magnitude `2 ^ 1024` and above, which overflow to an
infinity, are outside the model. -/
def f64_round (q : ℚ) : ℚ :=
  if q = 0 then 0
  else
    let e := max (binade q) (-1022)
    let ulp := pow2 (e - 52)
    (round_half_even (q / ulp) : ℚ) * ulp

/-- Conversion of an `int` to `Float64`. -/
def f64_of_int (n : Int) : ℚ := f64_round n

/-- Division of two `Float64`. -/
def f64_div (a b : ℚ) : ℚ := f64_round (a / b)

/-! ## Device negotiation -/

/-- The platform's `AudioValueRange`; each `Float64` bound is the rational it denotes. -/
structure AudioValueRange where
  mMinimum : ℚ
  mMaximum : ℚ

/-- First loop of `coreaudio_sync_device_sample_rate`: the fallback maximum. -/
def max_rate_loop : List AudioValueRange → ℚ → ℚ
  | [], sample_rate => sample_rate
  | x :: xs, sample_rate =>
    max_rate_loop xs (if x.mMaximum > sample_rate then x.mMaximum else sample_rate)

/-- Inner loop of the factor search: the first range that holds `rate` sets `sample_rate`
and breaks. -/
def range_scan (rate : ℚ) : List AudioValueRange → ℚ → ℚ
  | [], sample_rate => sample_rate
  | x :: xs, sample_rate =>
    if x.mMinimum ≤ rate ∧ rate ≤ x.mMaximum then rate else range_scan rate xs sample_rate

/-- Outer loop of the factor search, `for (int f = ...; f > 0; f--)`: `factor_loop ranges r f`
runs the iterations `f, f-1, ..., 1`. The quotient `desc.mSampleRate / f` is the `Float64`
division by the converted `int`. -/
def factor_loop (ranges : List AudioValueRange) (r : ℚ) : Nat → ℚ → ℚ
  | 0, sample_rate => sample_rate
  | f + 1, sample_rate =>
    factor_loop ranges r f
      (range_scan (f64_div r (f64_of_int ((f + 1 : Nat) : Int))) ranges sample_rate)

/-- The function `coreaudio_sync_device_sample_rate`: given the ranges read from the
device and `desc.mSampleRate`, the rate it writes with `AudioObjectSetPropertyData`. The
fallback starts from the `Float64` constant `.0`. -/
def coreaudio_sync_device_sample_rate (ranges : List AudioValueRange) (mSampleRate : ℚ) : ℚ :=
  factor_loop ranges mSampleRate 4 (max_rate_loop ranges 0)

/-- A rate lies inside some range of the list: `mMinimum ≤ rate ≤ mMaximum`. -/
def in_some_range (ranges : List AudioValueRange) (rate : ℚ) : Prop :=
  ∃ x ∈ ranges, x.mMinimum ≤ rate ∧ rate ≤ x.mMaximum

instance (ranges : List AudioValueRange) (rate : ℚ) : Decidable (in_some_range ranges rate) :=
  inferInstanceAs (Decidable (∃ x ∈ ranges, x.mMinimum ≤ rate ∧ rate ≤ x.mMaximum))

/-- Modelled from the spec: the enumeration `channel_position_t` is declared in
`channelmap.h`, which is not among the sources. It has the thirteen positions named by
`coreaudio_channel_mapping` and further positions the table does not name. -/
inductive channel_position_t where
  | CHANNEL_POSITION_LEFT
  | CHANNEL_POSITION_RIGHT
  | CHANNEL_POSITION_CENTER
  | CHANNEL_POSITION_LFE
  | CHANNEL_POSITION_SIDE_LEFT
  | CHANNEL_POSITION_SIDE_RIGHT
  | CHANNEL_POSITION_MONO
  | CHANNEL_POSITION_FRONT_LEFT_OF_CENTER
  | CHANNEL_POSITION_FRONT_RIGHT_OF_CENTER
  | CHANNEL_POSITION_REAR_LEFT
  | CHANNEL_POSITION_REAR_RIGHT
  | CHANNEL_POSITION_REAR_CENTER
  | CHANNEL_POSITION_INVALID
  | CHANNEL_POSITION_OTHER (code : Nat)
  deriving DecidableEq, Repr

/-- The platform's channel labels used by `coreaudio_channel_mapping`. -/
inductive AudioChannelLabel where
  | kAudioChannelLabel_Left
  | kAudioChannelLabel_Right
  | kAudioChannelLabel_Center
  | kAudioChannelLabel_LFEScreen
  | kAudioChannelLabel_LeftSurround
  | kAudioChannelLabel_RightSurround
  | kAudioChannelLabel_Mono
  | kAudioChannelLabel_LeftCenter
  | kAudioChannelLabel_RightCenter
  | kAudioChannelLabel_LeftSurroundDirect
  | kAudioChannelLabel_RightSurroundDirect
  | kAudioChannelLabel_CenterSurround
  | kAudioChannelLabel_Unknown
  deriving DecidableEq, Repr

open channel_position_t AudioChannelLabel in
/-- The table `coreaudio_channel_mapping`. -/
def coreaudio_channel_mapping : List (channel_position_t × AudioChannelLabel) :=
  [ (CHANNEL_POSITION_LEFT,                  kAudioChannelLabel_Left),
    (CHANNEL_POSITION_RIGHT,                 kAudioChannelLabel_Right),
    (CHANNEL_POSITION_CENTER,                kAudioChannelLabel_Center),
    (CHANNEL_POSITION_LFE,                   kAudioChannelLabel_LFEScreen),
    (CHANNEL_POSITION_SIDE_LEFT,             kAudioChannelLabel_LeftSurround),
    (CHANNEL_POSITION_SIDE_RIGHT,            kAudioChannelLabel_RightSurround),
    (CHANNEL_POSITION_MONO,                  kAudioChannelLabel_Mono),
    (CHANNEL_POSITION_FRONT_LEFT_OF_CENTER,  kAudioChannelLabel_LeftCenter),
    (CHANNEL_POSITION_FRONT_RIGHT_OF_CENTER, kAudioChannelLabel_RightCenter),
    (CHANNEL_POSITION_REAR_LEFT,             kAudioChannelLabel_LeftSurroundDirect),
    (CHANNEL_POSITION_REAR_RIGHT,            kAudioChannelLabel_RightSurroundDirect),
    (CHANNEL_POSITION_REAR_CENTER,           kAudioChannelLabel_CenterSurround),
    (CHANNEL_POSITION_INVALID,               kAudioChannelLabel_Unknown) ]

/-- The platform constant `kAudioChannelFlags_AllOff`. -/
def kAudioChannelFlags_AllOff : Nat := 0

/-- The platform constant `kAudioChannelLayoutTag_UseChannelDescriptions`. -/
def kAudioChannelLayoutTag_UseChannelDescriptions : Nat := 0

/-- The platform's `AudioChannelDescription`; the three `Float32` coordinates are modelled
by rationals. -/
structure AudioChannelDescription where
  mChannelLabel : AudioChannelLabel
  mChannelFlags : Nat
  mCoordinates : ℚ × ℚ × ℚ

/-- The platform's `AudioChannelLayout`; the array `mChannelDescriptions` is given by
index. -/
structure AudioChannelLayout where
  mChannelLayoutTag : Nat
  mChannelBitmap : Nat
  mNumberChannelDescriptions : Nat
  mChannelDescriptions : Nat → AudioChannelDescription

/-- Inner loop of `coreaudio_set_channel_position`: the first table entry for `pos` sets
`label` and breaks. -/
def label_scan (pos : channel_position_t) :
    List (channel_position_t × AudioChannelLabel) → AudioChannelLabel → AudioChannelLabel
  | [], label => label
  | e :: es, label => if pos = e.1 then e.2 else label_scan pos es label

/-- Body of the outer loop of `coreaudio_set_channel_position` for index `i`. -/
def layout_body (channels : Nat) (map : List channel_position_t) (i : Nat)
    (descriptions : Nat → AudioChannelDescription) : Nat → AudioChannelDescription :=
  let pos := map.getD i channel_position_t.CHANNEL_POSITION_INVALID
  let label := label_scan pos coreaudio_channel_mapping AudioChannelLabel.kAudioChannelLabel_Mono
  let d1 := Function.update descriptions (channels - 1 - i)
    { descriptions (channels - 1 - i) with mChannelLabel := label }
  Function.update d1 i
    { d1 i with mChannelFlags := kAudioChannelFlags_AllOff, mCoordinates := (0, 0, 0) }

/-- Outer loop of `coreaudio_set_channel_position`: `layout_loop channels map k i` runs the
`k` iterations `i, i+1, ..., i+k-1`. -/
def layout_loop (channels : Nat) (map : List channel_position_t) :
    Nat → Nat → (Nat → AudioChannelDescription) → (Nat → AudioChannelDescription)
  | 0, _, descriptions => descriptions
  | k + 1, i, descriptions =>
    layout_loop channels map k (i + 1) (layout_body channels map i descriptions)

/-- The function `coreaudio_set_channel_position`: the layout it passes to
`AudioObjectSetPropertyData`. `uninit` is the content of the memory `malloc` returned. -/
def coreaudio_set_channel_position (channels : Nat) (map : List channel_position_t)
    (uninit : Nat → AudioChannelDescription) : AudioChannelLayout :=
  { mChannelLayoutTag := kAudioChannelLayoutTag_UseChannelDescriptions
    mChannelBitmap := 0
    mNumberChannelDescriptions := channels
    mChannelDescriptions := layout_loop channels map channels 0 uninit }

/-- The function `coreaudio_hog_device(dev_id, hog)`. `owner` is the value of the device's
`kAudioDevicePropertyHogMode`, `get_ok` and `set_ok` are whether the property read and
write return `noErr`, `pid` is the result of `getpid()`. The result is the owner after the
call and the values written with `AudioObjectSetPropertyData`. -/
def coreaudio_hog_device (owner : Int) (get_ok set_ok : Bool) (pid : Int) (hog : Bool) :
    Int × List Int :=
  let hog_pid := owner
  if !get_ok then (owner, [])
  else if hog then
    if hog_pid ≠ -1 then (owner, [])
    else (if set_ok then pid else owner, [pid])
  else
    if hog_pid ≠ pid then (owner, [])
    else (if set_ok then -1 else owner, [-1])

/-- The label `coreaudio_set_channel_position` computes for a position: the result of its
inner loop over `coreaudio_channel_mapping`, entered with `kAudioChannelLabel_Mono`. -/
def position_label (pos : channel_position_t) : AudioChannelLabel :=
  label_scan pos coreaudio_channel_mapping AudioChannelLabel.kAudioChannelLabel_Mono

/-! ## Volume control

`Float32` values are modelled exactly: a finite binary32 value is the rational it denotes,
and every arithmetic operation is the exact operation followed by `f32_round`. -/

/-- IEEE 754 binary32 rounding, to nearest with ties to even: a significand of 24 bits and
a least exponent of -126. Results of magnitude `2 ^ 128` and above, which overflow to an
infinity, are outside the model. -/
def f32_round (q : ℚ) : ℚ :=
  if q = 0 then 0
  else
    let e := max (binade q) (-126)
    let ulp := pow2 (e - 23)
    (round_half_even (q / ulp) : ℚ) * ulp

/-- Conversion of an `int` to `Float32`. -/
def f32_of_int (n : Int) : ℚ := f32_round n

/-- Multiplication of two `Float32`. -/
def f32_mul (a b : ℚ) : ℚ := f32_round (a * b)

/-- Division of two `Float32`. -/
def f32_div (a b : ℚ) : ℚ := f32_round (a / b)

/-- Conversion of a `Float32` to `int`: the fraction is discarded. -/
def f32_to_int (q : ℚ) : Int := if 0 ≤ q then ⌊q⌋ else ⌈q⌉

/-- The variable `static int coreaudio_max_volume = 100`, which is never assigned. -/
def coreaudio_max_volume : Int := 100

/-- Loop body of `coreaudio_mixer_set_volume` up to the property write: the scalar
`vol[i]` computed from the requested volume `v`. -/
def volume_scalar (v : Int) : ℚ :=
  let vol := f32_div (f32_mul (f32_of_int v) 1) (f32_of_int coreaudio_max_volume)
  let vol := if vol > 1 then 1 else vol
  if vol < 0 then 0 else vol

/-- Loop body of `coreaudio_mixer_get_volume` after the property read: the volume computed
from the scalar `vol[i]`. -/
def scalar_volume (vol : ℚ) : Int :=
  let volume := f32_to_int (f32_mul vol (f32_of_int coreaudio_max_volume))
  let volume := if volume > coreaudio_max_volume then coreaudio_max_volume else volume
  if volume < 0 then 0 else volume

/-- The function `coreaudio_mixer_set_volume(l, r)`. `dev` holds the device's
`kAudioDevicePropertyVolumeScalar` by element, `coreaudio_stereo_channels` the two elements
addressed, and `set_ok0`, `set_ok1` are whether the two property writes return `noErr`; a
write that succeeds stores the scalar. The result is the device afterwards and
`OP_ERROR_SUCCESS` (0) or `-OP_ERROR_ERRNO` (-1). -/
def coreaudio_mixer_set_volume (dev : Nat → ℚ) (coreaudio_stereo_channels : Nat × Nat)
    (set_ok0 set_ok1 : Bool) (l r : Int) : (Nat → ℚ) × Int :=
  let dev1 :=
    if set_ok0 then Function.update dev coreaudio_stereo_channels.1 (volume_scalar l) else dev
  let dev2 :=
    if set_ok1 then Function.update dev1 coreaudio_stereo_channels.2 (volume_scalar r) else dev1
  (dev2, if set_ok0 && set_ok1 then 0 else -1)

/-- The function `coreaudio_mixer_get_volume(&l, &r)`. `get_ok0` and `get_ok1` are whether
the two property reads return `noErr`; a read that fails leaves `vol[i]` at its initial
`0.0`. The result is `(*l, *r)` and `OP_ERROR_SUCCESS` (0) or `-OP_ERROR_ERRNO` (-1). -/
def coreaudio_mixer_get_volume (dev : Nat → ℚ) (coreaudio_stereo_channels : Nat × Nat)
    (get_ok0 get_ok1 : Bool) : (Int × Int) × Int :=
  let vol0 := if get_ok0 then dev coreaudio_stereo_channels.1 else 0
  let vol1 := if get_ok1 then dev coreaudio_stereo_channels.2 else 0
  ((scalar_volume vol0, scalar_volume vol1), if get_ok0 && get_ok1 then 0 else -1)

/-! ## Bytes of a sequence of writes -/

/-- The first `cnt` bytes of a caller's buffer. -/
def call_bytes (w : WriteCall) : List Nat := (List.range w.2.toNat).map w.1

/-- The bytes handed to a sequence of `coreaudio_write` calls, in call order. -/
def written_bytes : List WriteCall → List Nat
  | [] => []
  | w :: ws => call_bytes w ++ written_bytes ws

/-- The sum of the counts of a sequence of `coreaudio_write` calls. -/
def total_count (ws : List WriteCall) : Int := (ws.map Prod.snd).sum

/-- The `n` bytes of memory from address `base` on. -/
def mem_bytes (mem : Memory) (base : Int) (n : Nat) : List Nat :=
  (List.range n).map (fun i : Nat => mem (base + (i : Int)))

/-! ## Example states -/

/-- Some content of freshly allocated memory read as a channel description. -/
def stale_description : AudioChannelDescription :=
  { mChannelLabel := AudioChannelLabel.kAudioChannelLabel_Unknown
    mChannelFlags := 7
    mCoordinates := (1, 2, 3) }


/-- The initial values of the file-scope variables, over a memory of `0xAA` bytes. -/
def initial_state : State :=
  { coreaudio_buffer_size := 0
    coreaudio_buffer := 0
    stopping := false
    dropping := false
    partial_ := false
    mem := fun _ => 170
    trace := []
    cb_waiting := false }

/-- The callback has published a slot of 8 bytes at address 1000 and is blocked. -/
def published_state : State :=
  (coreaudio_play_callback_publish initial_state true 1000 8).1

/-- A device with every volume scalar at `0.0`. -/
def silent_device : Nat → ℚ := fun _ => 0

/-- A caller's buffer holding the bytes 1, 2, 3, ... -/
def sample_buf : Nat → Nat := fun i => i + 1

/-! ## Theorems -/

/-! ### Arithmetic of the machine types -/

theorem u32_sub_of_le (a : Nat) (n : Int) (ha : a < 2 ^ 32) (h0 : 0 ≤ n) (hn : n ≤ a) :
    ((u32_sub a n : Nat) : Int) = a - n := by
  unfold u32_sub
  omega

theorem to_size_t_of_nonneg (a : Nat) (n : Int) (ha : a < 2 ^ 32) (h0 : 0 ≤ n) (hn : n ≤ a) :
    ((to_size_t n : Nat) : Int) = n := by
  unfold to_size_t
  omega


/-! ### `coreaudio_write` -/

/-- C2: for a state with remaining capacity `s.coreaudio_buffer_size` and a count `n` with
`0 ≤ n ≤ s.coreaudio_buffer_size`, `coreaudio_write` returns `n` and leaves the capacity at
`s.coreaudio_buffer_size - n`. If that is zero it locks, signals the condition variable once
and unlocks, clears `partial` and leaves `coreaudio_buffer` where it was; otherwise it
issues no pthread call, advances `coreaudio_buffer` by `n` and sets `partial`. `stopping`
and `dropping` are unchanged. -/
theorem coreaudio_write_contract (s : State) (buf : Nat → Nat) (n : Int)
    (hs : s.coreaudio_buffer_size < 2 ^ 32) (h0 : 0 ≤ n)
    (hn : n ≤ (s.coreaudio_buffer_size : Int)) :
    (coreaudio_write s buf n).2 = n ∧
    (((coreaudio_write s buf n).1.coreaudio_buffer_size : Nat) : Int)
      = (s.coreaudio_buffer_size : Int) - n ∧
    ((s.coreaudio_buffer_size : Int) - n = 0 →
      (coreaudio_write s buf n).1.trace
        = s.trace ++ [Event.mutex_lock, Event.cond_signal, Event.mutex_unlock] ∧
      (coreaudio_write s buf n).1.signals = s.signals + 1 ∧
      (coreaudio_write s buf n).1.partial_ = false ∧
      (coreaudio_write s buf n).1.coreaudio_buffer = s.coreaudio_buffer) ∧
    ((s.coreaudio_buffer_size : Int) - n ≠ 0 →
      (coreaudio_write s buf n).1.trace = s.trace ∧
      (coreaudio_write s buf n).1.signals = s.signals ∧
      (coreaudio_write s buf n).1.coreaudio_buffer = s.coreaudio_buffer + n ∧
      (coreaudio_write s buf n).1.partial_ = true) ∧
    (coreaudio_write s buf n).1.stopping = s.stopping ∧
    (coreaudio_write s buf n).1.dropping = s.dropping := by
  have hsub := u32_sub_of_le s.coreaudio_buffer_size n hs h0 hn
  by_cases hz : u32_sub s.coreaudio_buffer_size n = 0
  · have hd : (s.coreaudio_buffer_size : Int) - n = 0 := by rw [← hsub, hz]; rfl
    simp [coreaudio_write, hz, State.emit, State.signals, hd]
  · have hd : (s.coreaudio_buffer_size : Int) - n ≠ 0 := by
      intro h; rw [← hsub] at h; exact hz (by exact_mod_cast h)
    simp [coreaudio_write, hz, State.signals, hd, hsub]

/-- C2, at concrete inputs: a write of 3 bytes into the published slot of 8 bytes. -/
theorem coreaudio_write_contract_witness :
    (coreaudio_write published_state sample_buf 3).2 = 3 ∧
    (((coreaudio_write published_state sample_buf 3).1.coreaudio_buffer_size : Nat) : Int)
      = (published_state.coreaudio_buffer_size : Int) - 3 ∧
    (coreaudio_write published_state sample_buf 3).1.coreaudio_buffer = 1003 ∧
    (coreaudio_write published_state sample_buf 3).1.partial_ = true := by
  have h := coreaudio_write_contract published_state sample_buf 3 (by decide) (by decide)
    (by decide)
  refine ⟨h.1, h.2.1, ?_, ?_⟩
  · have h2 := (h.2.2.2.1 (by decide)).2.2.1
    rw [h2]; decide
  · exact (h.2.2.2.1 (by decide)).2.2.2

/-! ### Sequences of `coreaudio_write` calls -/

theorem write_size (s : State) (buf : Nat → Nat) (n : Int) :
    (coreaudio_write s buf n).1.coreaudio_buffer_size = u32_sub s.coreaudio_buffer_size n := by
  unfold coreaudio_write
  by_cases hz : u32_sub s.coreaudio_buffer_size n = 0 <;> simp [hz, State.emit]

theorem write_signals (s : State) (buf : Nat → Nat) (n : Int) :
    (coreaudio_write s buf n).1.signals
      = s.signals + (if u32_sub s.coreaudio_buffer_size n = 0 then 1 else 0) := by
  unfold coreaudio_write
  by_cases hz : u32_sub s.coreaudio_buffer_size n = 0 <;>
    simp [hz, State.emit, State.signals]

theorem u32_sub_lt (a : Nat) (n : Int) : u32_sub a n < 2 ^ 32 := by
  unfold u32_sub
  omega

theorem sum_counts_nonneg (ws : List WriteCall) (hnn : ∀ w ∈ ws, 0 ≤ w.2) :
    0 ≤ (ws.map Prod.snd).sum := by
  apply List.sum_nonneg
  intro x hx
  obtain ⟨w, hw, rfl⟩ := List.mem_map.1 hx
  exact hnn w hw

/-- Zero-byte writes into a drained slot: no transition, one signal per call. -/
theorem write_seq_drained (ws : List WriteCall) :
    ∀ t : State, t.coreaudio_buffer_size = 0 → (∀ w ∈ ws, 0 ≤ w.2) →
      (ws.map Prod.snd).sum = 0 →
      drain_count t ws = 0 ∧ (write_seq t ws).signals = t.signals + ws.length ∧
        ∀ w ∈ ws, w.2 = 0 := by
  induction ws with
  | nil => intro t _ _ _; simp [drain_count, write_seq]
  | cons w ws ih =>
    intro t ht hnn hsum
    have hw : 0 ≤ w.2 := hnn w (List.mem_cons_self _ _)
    have hrest : ∀ v ∈ ws, 0 ≤ v.2 := fun v hv => hnn v (List.mem_cons_of_mem _ hv)
    have hr := sum_counts_nonneg ws hrest
    simp only [List.map_cons, List.sum_cons] at hsum
    have hw0 : w.2 = 0 := by omega
    have hs0 : (ws.map Prod.snd).sum = 0 := by omega
    have hsz : (coreaudio_write t w.1 w.2).1.coreaudio_buffer_size = 0 := by
      rw [write_size, ht, hw0]; decide
    have hsg : (coreaudio_write t w.1 w.2).1.signals = t.signals + 1 := by
      rw [write_signals, ht, hw0, if_pos (by decide)]
    obtain ⟨h1, h2, h3⟩ := ih _ hsz hrest hs0
    refine ⟨?_, ?_, ?_⟩
    · simp [drain_count, ht, h1]
    · simp only [write_seq, h2, hsg, List.length_cons]; omega
    · intro v hv
      rcases List.mem_cons.1 hv with rfl | hv
      · exact hw0
      · exact h3 v hv

/-- Writes whose non-negative counts add up to the capacity: the capacity reaches zero across
exactly one call, and when the last count is not zero exactly one call signals. -/
theorem write_seq_exact (ws : List WriteCall) :
    ∀ t : State, t.coreaudio_buffer_size < 2 ^ 32 → 0 < t.coreaudio_buffer_size →
      (∀ w ∈ ws, 0 ≤ w.2) → (ws.map Prod.snd).sum = (t.coreaudio_buffer_size : Int) →
      drain_count t ws = 1 ∧ (write_seq t ws).coreaudio_buffer_size = 0 ∧
        ((ws.map Prod.snd).getLast? ≠ some 0 → (write_seq t ws).signals = t.signals + 1) := by
  induction ws with
  | nil => intro t _ hpos _ hsum; simp at hsum; omega
  | cons w ws ih =>
    intro t hlt hpos hnn hsum
    have hw : 0 ≤ w.2 := hnn w (List.mem_cons_self _ _)
    have hrest : ∀ v ∈ ws, 0 ≤ v.2 := fun v hv => hnn v (List.mem_cons_of_mem _ hv)
    have hr := sum_counts_nonneg ws hrest
    simp only [List.map_cons, List.sum_cons] at hsum
    have hle : w.2 ≤ (t.coreaudio_buffer_size : Int) := by omega
    have hsub := u32_sub_of_le t.coreaudio_buffer_size w.2 hlt hw hle
    have hsz := write_size t w.1 w.2
    have hsg := write_signals t w.1 w.2
    by_cases hz : u32_sub t.coreaudio_buffer_size w.2 = 0
    · -- this call drains the slot; what follows are zero-byte writes
      have hs0 : (ws.map Prod.snd).sum = 0 := by
        rw [hz] at hsub; simp at hsub; omega
      obtain ⟨h1, h2, h3⟩ := write_seq_drained ws _ (by rw [hsz, hz]) hrest hs0
      refine ⟨?_, ?_, ?_⟩
      · simp only [drain_count, h1, hsz, hz]
        have : t.coreaudio_buffer_size ≠ 0 := by omega
        simp [this]
      · cases ws with
        | nil => simp [write_seq, hsz, hz]
        | cons v vs =>
          simp only [write_seq]
          -- the capacity stays zero
          have key : ∀ (us : List WriteCall) (u : State), u.coreaudio_buffer_size = 0 →
              (∀ x ∈ us, x.2 = 0) → (write_seq u us).coreaudio_buffer_size = 0 := by
            intro us
            induction us with
            | nil => intro u hu _; simpa [write_seq] using hu
            | cons x xs ihx =>
              intro u hu hx
              simp only [write_seq]
              apply ihx
              · rw [write_size, hu, hx x (List.mem_cons_self _ _)]; decide
              · exact fun y hy => hx y (List.mem_cons_of_mem _ hy)
          have := key (v :: vs) (coreaudio_write t w.1 w.2).1 (by rw [hsz, hz]) h3
          simpa [write_seq] using this
      · intro hlast
        cases ws with
        | nil =>
          simp only [write_seq, hsg, hz]
          simp
        | cons v vs =>
          exfalso
          apply hlast
          simp only [List.map_cons, List.getLast?_cons_cons]
          have hne : (v.2 :: vs.map Prod.snd) ≠ [] := by simp
          rw [List.getLast?_eq_getLast _ hne]
          have hmem := List.getLast_mem hne
          have : ∀ x ∈ (v.2 :: vs.map Prod.snd), x = 0 := by
            intro x hx
            have hx2 : x ∈ ((v :: vs).map Prod.snd) := by simpa using hx
            obtain ⟨u, hu, rfl⟩ := List.mem_map.1 hx2
            exact h3 u hu
          rw [this _ hmem]
    · -- a short write: capacity remains, no signal
      have hpos2 : 0 < (coreaudio_write t w.1 w.2).1.coreaudio_buffer_size := by
        rw [hsz]; omega
      have hlt2 : (coreaudio_write t w.1 w.2).1.coreaudio_buffer_size < 2 ^ 32 := by
        rw [hsz]; exact u32_sub_lt _ _
      have hsum2 : (ws.map Prod.snd).sum
          = ((coreaudio_write t w.1 w.2).1.coreaudio_buffer_size : Int) := by
        rw [hsz, hsub]; omega
      obtain ⟨h1, h2, h3⟩ := ih _ hlt2 hpos2 hrest hsum2
      refine ⟨?_, ?_, ?_⟩
      · simp only [drain_count, h1, hsz, hz]
        simp
      · simpa [write_seq] using h2
      · intro hlast
        have hne : ws ≠ [] := by
          rintro rfl
          simp at hsum2
          omega
        obtain ⟨v, vs, rfl⟩ := List.exists_cons_of_ne_nil hne
        simp only [List.map_cons, List.getLast?_cons_cons] at hlast
        have := h3 (by simpa using hlast)
        simp only [write_seq] at this ⊢
        rw [this, hsg, if_neg hz]

theorem buffer_space_ready (s : State) (env : State → State)
    (h : s.coreaudio_buffer_size ≠ 0) :
    coreaudio_buffer_space s env
      = (s.emit [Event.mutex_lock, Event.mutex_unlock], u32_to_int s.coreaudio_buffer_size) := by
  simp [coreaudio_buffer_space, State.emit, h]

/-- C1, as amended: from a slot of capacity `C > 0`, which is the value
`coreaudio_buffer_space` reports, every sequence of `coreaudio_write` calls with
non-negative counts adding up to `C` takes `coreaudio_buffer_size` from non-zero to zero
across exactly one call, and, when the last count of the sequence is not zero, calls
`pthread_cond_signal` exactly once. -/
theorem write_seq_drains_and_signals_once (s : State) (env : State → State)
    (ws : List WriteCall) (C : Nat) (hs : s.coreaudio_buffer_size = C) (hpos : 0 < C)
    (hC : C < 2 ^ 31) (hnn : ∀ w ∈ ws, 0 ≤ w.2) (hsum : (ws.map Prod.snd).sum = (C : Int)) :
    (coreaudio_buffer_space s env).2 = (C : Int) ∧
    drain_count (coreaudio_buffer_space s env).1 ws = 1 ∧
    (write_seq (coreaudio_buffer_space s env).1 ws).coreaudio_buffer_size = 0 ∧
    ((ws.map Prod.snd).getLast? ≠ some 0 →
      (write_seq (coreaudio_buffer_space s env).1 ws).signals
        = (coreaudio_buffer_space s env).1.signals + 1) := by
  have hne : s.coreaudio_buffer_size ≠ 0 := by omega
  rw [buffer_space_ready s env hne]
  have hsz : (s.emit [Event.mutex_lock, Event.mutex_unlock]).coreaudio_buffer_size = C := by
    simp [State.emit, hs]
  refine ⟨?_, ?_⟩
  · simp only [u32_to_int, hs]
    have h1 : C % 2 ^ 32 = C := Nat.mod_eq_of_lt (by omega)
    rw [h1, if_pos hC]
  · exact write_seq_exact ws _ (by rw [hsz]; omega) (by rw [hsz]; exact hpos) hnn
      (by rw [hsz]; exact hsum)

/-- C1, at concrete inputs: the published slot of 8 bytes filled by writes of 3, 0 and 5
bytes. -/
theorem write_seq_drains_and_signals_once_witness :
    drain_count (coreaudio_buffer_space published_state id).1
      [(sample_buf, 3), (sample_buf, 0), (sample_buf, 5)] = 1 ∧
    (write_seq (coreaudio_buffer_space published_state id).1
      [(sample_buf, 3), (sample_buf, 0), (sample_buf, 5)]).signals
        = (coreaudio_buffer_space published_state id).1.signals + 1 := by
  have h := write_seq_drains_and_signals_once published_state id
    [(sample_buf, 3), (sample_buf, 0), (sample_buf, 5)] 8 (by decide) (by decide) (by decide)
    (by decide) (by decide)
  exact ⟨h.2.1, h.2.2.2 (by decide)⟩

/-- C1, as stated, fails: the slot of 8 bytes, which `coreaudio_buffer_space` reports as 8,
written by the calls with counts 8 and 0 (sum 8) is signalled twice, not once. -/
theorem write_seq_trailing_zero_signals_twice :
    (coreaudio_buffer_space published_state id).2 = 8 ∧
    ([(sample_buf, (8 : Int)), (sample_buf, (0 : Int))].map Prod.snd).sum = 8 ∧
    (write_seq (coreaudio_buffer_space published_state id).1
      [(sample_buf, 8), (sample_buf, 0)]).signals
        = (coreaudio_buffer_space published_state id).1.signals + 2 ∧
    (write_seq (coreaudio_buffer_space published_state id).1
      [(sample_buf, 8), (sample_buf, 0)]).signals
        ≠ (coreaudio_buffer_space published_state id).1.signals + 1 := by
  decide

/-! ### Flush after a short write -/

theorem write_short (s : State) (buf : Nat → Nat) (n : Int)
    (hz : u32_sub s.coreaudio_buffer_size n ≠ 0) :
    (coreaudio_write s buf n).1 =
      { s with mem := memcpy s.mem s.coreaudio_buffer buf (to_size_t n)
               coreaudio_buffer_size := u32_sub s.coreaudio_buffer_size n
               coreaudio_buffer := s.coreaudio_buffer + n
               partial_ := true } := by
  simp [coreaudio_write, hz]

theorem flush_mem_short_write (s : State) (lock_ok drop : Bool) (hp : s.partial_ = true) :
    (coreaudio_flush_buffer s lock_ok drop).mem
      = if drop then s.mem else memset s.mem s.coreaudio_buffer 0 s.coreaudio_buffer_size := by
  cases drop <;> cases lock_ok <;>
    by_cases h : s.coreaudio_buffer_size = 0 <;>
      simp [coreaudio_flush_buffer, State.emit, hp, h]

/-- C3: a slot of capacity `C` at base address `B`, then a write of `n` bytes with
`0 < n < C`. A following pause, `coreaudio_flush_buffer(false)`, sets the bytes
`B+n .. B+C-1` to zero and changes no other byte, so the `n` written bytes `B .. B+n-1`
still hold the caller's data; a following drop, `coreaudio_flush_buffer(true)`, changes
no byte at all. -/
theorem flush_after_short_write (s : State) (lock_ok : Bool) (buf : Nat → Nat) (B : Int)
    (C : Nat) (n : Int) (hB : s.coreaudio_buffer = B) (hC : s.coreaudio_buffer_size = C)
    (hlt : C < 2 ^ 32) (h0 : 0 < n) (hn : n < (C : Int)) :
    (∀ a : Int, B + n ≤ a → a < B + C →
      (coreaudio_flush_buffer (coreaudio_write s buf n).1 lock_ok false).mem a = 0) ∧
    (∀ a : Int, ¬ (B + n ≤ a ∧ a < B + C) →
      (coreaudio_flush_buffer (coreaudio_write s buf n).1 lock_ok false).mem a
        = (coreaudio_write s buf n).1.mem a) ∧
    (∀ a : Int, B ≤ a → a < B + n →
      (coreaudio_flush_buffer (coreaudio_write s buf n).1 lock_ok false).mem a
        = buf (a - B).toNat) ∧
    (coreaudio_flush_buffer (coreaudio_write s buf n).1 lock_ok true).mem
      = (coreaudio_write s buf n).1.mem := by
  subst hB hC
  have hsub := u32_sub_of_le s.coreaudio_buffer_size n (by omega) (by omega) (by omega)
  have hsz := to_size_t_of_nonneg s.coreaudio_buffer_size n (by omega) (by omega) (by omega)
  have hz : u32_sub s.coreaudio_buffer_size n ≠ 0 := by
    intro h; rw [h] at hsub; simp at hsub; omega
  have hw := write_short s buf n hz
  have hp : (coreaudio_write s buf n).1.partial_ = true := by rw [hw]
  rw [flush_mem_short_write _ _ _ hp, flush_mem_short_write _ _ _ hp]
  simp only [Bool.false_eq_true, if_false, if_true]
  rw [hw]
  simp only [memset, memcpy, hsub, hsz]
  refine ⟨?_, ?_, ?_, trivial⟩
  · intro a h1 h2
    rw [if_pos ⟨h1, by omega⟩]
  · intro a h
    rw [if_neg (by omega)]
  · intro a h1 h2
    rw [if_neg (by omega), if_pos ⟨h1, h2⟩]

/-- C3, at concrete inputs: 3 bytes written into the slot of 8 bytes at address 1000. After
a pause byte 1003 is zero and byte 1002 holds the third byte written; after a drop byte
1003 is what it was. -/
theorem flush_after_short_write_witness :
    (coreaudio_flush_buffer (coreaudio_write published_state sample_buf 3).1 true false).mem
        1003 = 0 ∧
    (coreaudio_flush_buffer (coreaudio_write published_state sample_buf 3).1 true false).mem
        1002 = 3 ∧
    (coreaudio_flush_buffer (coreaudio_write published_state sample_buf 3).1 true true).mem
        1003 = 170 := by
  have h := flush_after_short_write published_state true sample_buf 1000 8 3 (by decide)
    (by decide) (by decide) (by decide) (by decide)
  refine ⟨h.1 1003 (by decide) (by decide), ?_, ?_⟩
  · rw [h.2.2.1 1002 (by decide) (by decide)]; decide
  · rw [h.2.2.2]; decide

/-! ### The `stopping` flag -/

theorem flush_stopping (s : State) (lock_ok drop : Bool) :
    (coreaudio_flush_buffer s lock_ok drop).stopping = !drop := by
  cases lock_ok <;> by_cases hp : s.partial_ = true <;>
    by_cases h : s.coreaudio_buffer_size = 0 <;>
      simp [coreaudio_flush_buffer, State.emit, hp, h]

theorem callback_of_stopping (s : State) (lock_ok : Bool) (mData : Int) (mDataByteSize : Nat)
    (env : State → State) (h : s.stopping = true) :
    coreaudio_play_callback s lock_ok mData mDataByteSize env
      = (s, OSStatus.kAudioUnitErr_NoConnection) := by
  simp [coreaudio_play_callback, coreaudio_play_callback_publish, h]

/-- C5: when `stopping` is true at entry, `coreaudio_play_callback` returns
`kAudioUnitErr_NoConnection` and leaves the whole state as it was: it calls neither
`pthread_mutex_lock` nor `pthread_cond_wait` (the trace of calls is unchanged), it does not
block, and `coreaudio_buffer`, `coreaudio_buffer_size`, `dropping` and `partial` keep their
values. -/
theorem callback_stopping_returns_at_once (s : State) (lock_ok : Bool) (mData : Int)
    (mDataByteSize : Nat) (env : State → State) (h : s.stopping = true) :
    (coreaudio_play_callback s lock_ok mData mDataByteSize env).2
      = OSStatus.kAudioUnitErr_NoConnection ∧
    (coreaudio_play_callback_publish s lock_ok mData mDataByteSize).2
      = some OSStatus.kAudioUnitErr_NoConnection ∧
    (coreaudio_play_callback s lock_ok mData mDataByteSize env).1 = s ∧
    (coreaudio_play_callback s lock_ok mData mDataByteSize env).1.trace = s.trace ∧
    (coreaudio_play_callback s lock_ok mData mDataByteSize env).1.cb_waiting = s.cb_waiting ∧
    (coreaudio_play_callback s lock_ok mData mDataByteSize env).1.coreaudio_buffer
      = s.coreaudio_buffer ∧
    (coreaudio_play_callback s lock_ok mData mDataByteSize env).1.coreaudio_buffer_size
      = s.coreaudio_buffer_size ∧
    (coreaudio_play_callback s lock_ok mData mDataByteSize env).1.dropping = s.dropping ∧
    (coreaudio_play_callback s lock_ok mData mDataByteSize env).1.partial_ = s.partial_ := by
  rw [callback_of_stopping s lock_ok mData mDataByteSize env h]
  simp [coreaudio_play_callback_publish, h]

/-- C5, at concrete inputs: the callback entered after a pause. -/
theorem callback_stopping_returns_at_once_witness :
    (coreaudio_play_callback (coreaudio_pause published_state true true).1 true 2000 8 id).2
      = OSStatus.kAudioUnitErr_NoConnection ∧
    (coreaudio_play_callback (coreaudio_pause published_state true true).1 true 2000 8 id).1.trace
      = (coreaudio_pause published_state true true).1.trace :=
  ⟨(callback_stopping_returns_at_once (coreaudio_pause published_state true true).1 true 2000 8
      id (by decide)).1,
   (callback_stopping_returns_at_once (coreaudio_pause published_state true true).1 true 2000 8
      id (by decide)).2.2.2.1⟩

/-- C7, as amended: `coreaudio_drop` sets `stopping` to false whatever its value before the
call (`stopping = !drop`); it is `coreaudio_pause` that sets it to true. -/
theorem drop_clears_stopping (s : State) (lock_ok stop_ok : Bool) :
    (coreaudio_drop s lock_ok).1.stopping = false ∧
    (coreaudio_pause s lock_ok stop_ok).1.stopping = true := by
  have h1 := flush_stopping s lock_ok true
  have h2 := flush_stopping s lock_ok false
  constructor
  · simpa [coreaudio_drop] using h1
  · simpa [coreaudio_pause, State.emit] using h2

/-- C7, as stated, fails: a drop in the paused state, where `stopping` is true, leaves
`stopping` false. -/
theorem drop_after_pause_stopping_false :
    (coreaudio_pause published_state true true).1.stopping = true ∧
    (coreaudio_drop (coreaudio_pause published_state true true).1 true).1.stopping = false := by
  decide

/-! ### Hog mode -/

/-- C10: with the owner `owner` read successfully and the caller's pid `pid`,
`coreaudio_hog_device(dev, true)` leaves the owner unchanged and writes nothing when the
owner is another process, and `coreaudio_hog_device(dev, false)` does so when the owner is
not the caller. The owner changes only on enable with no owner, to `pid`, or on disable
with the caller as owner, to `-1`; a write is issued only in these two cases, and when the
write succeeds it takes effect. -/
theorem hog_device_frame (owner pid : Int) (set_ok : Bool) :
    (owner ≠ -1 → owner ≠ pid →
      coreaudio_hog_device owner true set_ok pid true = (owner, [])) ∧
    (owner ≠ pid → coreaudio_hog_device owner true set_ok pid false = (owner, [])) ∧
    (∀ hog : Bool, (coreaudio_hog_device owner true set_ok pid hog).1 ≠ owner →
      (hog = true ∧ owner = -1 ∧ (coreaudio_hog_device owner true set_ok pid hog).1 = pid) ∨
      (hog = false ∧ owner = pid ∧ (coreaudio_hog_device owner true set_ok pid hog).1 = -1)) ∧
    (∀ hog : Bool, (coreaudio_hog_device owner true set_ok pid hog).2 ≠ [] →
      (hog = true ∧ owner = -1) ∨ (hog = false ∧ owner = pid)) ∧
    (owner = -1 → coreaudio_hog_device owner true true pid true = (pid, [pid])) ∧
    (owner = pid → coreaudio_hog_device owner true true pid false = (-1, [-1])) := by
  refine ⟨?_, ?_, ?_, ?_, ?_, ?_⟩
  · intro h1 _
    simp [coreaudio_hog_device, h1]
  · intro h1
    simp [coreaudio_hog_device, h1]
  · intro hog
    cases hog <;> cases set_ok <;> simp only [coreaudio_hog_device] <;> split_ifs <;> simp_all
  · intro hog
    cases hog <;> simp only [coreaudio_hog_device] <;> split_ifs <;> simp_all
  · intro h1
    simp [coreaudio_hog_device, h1]
  · intro h1
    simp [coreaudio_hog_device, h1]

/-- C10, at concrete inputs: pid 500 asks for hog mode while pid 77 holds it, and releases
hog mode while nobody holds it. -/
theorem hog_device_frame_witness :
    coreaudio_hog_device 77 true true 500 true = (77, []) ∧
    coreaudio_hog_device (-1) true true 500 false = (-1, []) :=
  ⟨(hog_device_frame 77 500 true).1 (by decide) (by decide),
   (hog_device_frame (-1) 500 true).2.1 (by decide)⟩

/-! ### Sample-rate synchronisation -/

theorem range_scan_of_in (rate : ℚ) (ranges : List AudioValueRange) (sample_rate : ℚ)
    (h : in_some_range ranges rate) : range_scan rate ranges sample_rate = rate := by
  induction ranges with
  | nil => obtain ⟨x, hx, _⟩ := h; simp at hx
  | cons y ys ih =>
    by_cases hy : y.mMinimum ≤ rate ∧ rate ≤ y.mMaximum
    · simp [range_scan, hy]
    · obtain ⟨x, hx, hx2⟩ := h
      rcases List.mem_cons.1 hx with rfl | hx
      · exact absurd hx2 hy
      · simp only [range_scan, if_neg hy]
        exact ih ⟨x, hx, hx2⟩

theorem range_scan_of_not_in (rate : ℚ) (ranges : List AudioValueRange) (sample_rate : ℚ)
    (h : ¬ in_some_range ranges rate) : range_scan rate ranges sample_rate = sample_rate := by
  induction ranges with
  | nil => rfl
  | cons y ys ih =>
    have hy : ¬ (y.mMinimum ≤ rate ∧ rate ≤ y.mMaximum) :=
      fun hy => h ⟨y, List.mem_cons_self _ _, hy⟩
    simp only [range_scan, if_neg hy]
    exact ih (fun ⟨x, hx, hx2⟩ => h ⟨x, List.mem_cons_of_mem _ hx, hx2⟩)

theorem max_rate_loop_eq_foldl (ranges : List AudioValueRange) :
    ∀ a : ℚ, max_rate_loop ranges a = (ranges.map AudioValueRange.mMaximum).foldl max a := by
  induction ranges with
  | nil => intro a; rfl
  | cons y ys ih =>
    intro a
    simp only [max_rate_loop, List.map_cons, List.foldl_cons]
    rw [ih]
    congr 1
    by_cases h : y.mMaximum > a
    · rw [if_pos h, max_eq_right (le_of_lt h)]
    · rw [if_neg h, max_eq_left (not_lt.1 h)]

theorem max_rate_loop_ge (ranges : List AudioValueRange) :
    ∀ a : ℚ, a ≤ max_rate_loop ranges a ∧ ∀ x ∈ ranges, x.mMaximum ≤ max_rate_loop ranges a := by
  induction ranges with
  | nil => intro a; simp [max_rate_loop]
  | cons y ys ih =>
    intro a
    simp only [max_rate_loop]
    obtain ⟨h1, h2⟩ := ih (if y.mMaximum > a then y.mMaximum else a)
    have h3 : a ≤ (if y.mMaximum > a then y.mMaximum else a) := by
      split_ifs with h
      · exact le_of_lt h
      · exact le_refl _
    have h4 : y.mMaximum ≤ (if y.mMaximum > a then y.mMaximum else a) := by
      split_ifs with h
      · exact le_refl _
      · exact not_lt.1 h
    refine ⟨le_trans h3 h1, ?_⟩
    intro x hx
    rcases List.mem_cons.1 hx with rfl | hx
    · exact le_trans h4 h1
    · exact h2 x hx

theorem max_rate_loop_mem (ranges : List AudioValueRange) :
    ∀ a : ℚ, max_rate_loop ranges a = a ∨ ∃ x ∈ ranges, max_rate_loop ranges a = x.mMaximum := by
  induction ranges with
  | nil => intro a; left; rfl
  | cons y ys ih =>
    intro a
    simp only [max_rate_loop]
    rcases ih (if y.mMaximum > a then y.mMaximum else a) with h | ⟨x, hx, h⟩
    · split_ifs at h ⊢ with hy
      · right; exact ⟨y, List.mem_cons_self _ _, h⟩
      · left; exact h
    · right; exact ⟨x, List.mem_cons_of_mem _ hx, h⟩

theorem max_rate_loop_nonneg_or_mem (ranges : List AudioValueRange) :
    max_rate_loop ranges 0 = 0 ∨ ∃ x ∈ ranges, max_rate_loop ranges 0 = x.mMaximum :=
  max_rate_loop_mem ranges 0

theorem f64_of_int_small :
    f64_of_int 1 = 1 ∧ f64_of_int 2 = 2 ∧ f64_of_int 3 = 3 ∧ f64_of_int 4 = 4 := by
  decide!

theorem sync_rate_unfold (ranges : List AudioValueRange) (r : ℚ) :
    coreaudio_sync_device_sample_rate ranges r
      = range_scan (f64_div r (f64_of_int ((1 : Nat) : Int))) ranges
          (range_scan (f64_div r (f64_of_int ((2 : Nat) : Int))) ranges
            (range_scan (f64_div r (f64_of_int ((3 : Nat) : Int))) ranges
              (range_scan (f64_div r (f64_of_int ((4 : Nat) : Int))) ranges
                (max_rate_loop ranges 0)))) := rfl

/-- C8, as amended: the rate `coreaudio_sync_device_sample_rate` writes is the `Float64`
quotient `r / f` for the smallest factor `f` in 1..4 whose quotient lies inside some
range, so a requested rate that is a `Float64` and is itself supported is kept. If no
factor fits it is the fallback of the first loop, the largest of `0.0` and the range
maxima: it is not negative, no range maximum exceeds it, it is 0 or the maximum of some
range, and it is 0 when there are no ranges. -/
theorem sync_sample_rate_selects (ranges : List AudioValueRange) (r : ℚ) :
    (∀ f : Nat, 1 ≤ f → f ≤ 4 → in_some_range ranges (f64_div r (f64_of_int (f : Int))) →
      (∀ g : Nat, 1 ≤ g → g < f →
        ¬ in_some_range ranges (f64_div r (f64_of_int (g : Int)))) →
      coreaudio_sync_device_sample_rate ranges r = f64_div r (f64_of_int (f : Int))) ∧
    (f64_round r = r → in_some_range ranges r →
      coreaudio_sync_device_sample_rate ranges r = r) ∧
    ((∀ f : Nat, 1 ≤ f → f ≤ 4 →
        ¬ in_some_range ranges (f64_div r (f64_of_int (f : Int)))) →
      coreaudio_sync_device_sample_rate ranges r
        = (ranges.map AudioValueRange.mMaximum).foldl max 0 ∧
      0 ≤ coreaudio_sync_device_sample_rate ranges r ∧
      (∀ x ∈ ranges, x.mMaximum ≤ coreaudio_sync_device_sample_rate ranges r) ∧
      (coreaudio_sync_device_sample_rate ranges r = 0 ∨
        ∃ x ∈ ranges, coreaudio_sync_device_sample_rate ranges r = x.mMaximum) ∧
      (ranges = [] → coreaudio_sync_device_sample_rate ranges r = 0)) := by
  have key : ∀ f : Nat, 1 ≤ f → f ≤ 4 →
      in_some_range ranges (f64_div r (f64_of_int (f : Int))) →
      (∀ g : Nat, 1 ≤ g → g < f →
        ¬ in_some_range ranges (f64_div r (f64_of_int (g : Int)))) →
      coreaudio_sync_device_sample_rate ranges r = f64_div r (f64_of_int (f : Int)) := by
    intro f h1 h4 hin hsmall
    rw [sync_rate_unfold]
    have hf : f = 1 ∨ f = 2 ∨ f = 3 ∨ f = 4 := by omega
    rcases hf with rfl | rfl | rfl | rfl
    · exact range_scan_of_in _ _ _ hin
    · rw [range_scan_of_not_in _ _ _ (hsmall 1 (by decide) (by decide))]
      exact range_scan_of_in _ _ _ hin
    · rw [range_scan_of_not_in _ _ _ (hsmall 1 (by decide) (by decide)),
        range_scan_of_not_in _ _ _ (hsmall 2 (by decide) (by decide))]
      exact range_scan_of_in _ _ _ hin
    · rw [range_scan_of_not_in _ _ _ (hsmall 1 (by decide) (by decide)),
        range_scan_of_not_in _ _ _ (hsmall 2 (by decide) (by decide)),
        range_scan_of_not_in _ _ _ (hsmall 3 (by decide) (by decide))]
      exact range_scan_of_in _ _ _ hin
  refine ⟨key, ?_, ?_⟩
  · intro hrep hin
    have hq : f64_div r (f64_of_int ((1 : Nat) : Int)) = r := by
      show f64_round (r / f64_of_int 1) = r
      rw [f64_of_int_small.1, div_one, hrep]
    have := key 1 (by decide) (by decide) (by rw [hq]; exact hin)
      (fun g hg1 hg2 => by omega)
    rw [this, hq]
  · intro hnone
    have hfb : coreaudio_sync_device_sample_rate ranges r = max_rate_loop ranges 0 := by
      rw [sync_rate_unfold,
        range_scan_of_not_in _ _ _ (hnone 1 (by decide) (by decide)),
        range_scan_of_not_in _ _ _ (hnone 2 (by decide) (by decide)),
        range_scan_of_not_in _ _ _ (hnone 3 (by decide) (by decide)),
        range_scan_of_not_in _ _ _ (hnone 4 (by decide) (by decide))]
    rw [hfb]
    refine ⟨max_rate_loop_eq_foldl ranges 0, (max_rate_loop_ge ranges 0).1,
      (max_rate_loop_ge ranges 0).2, max_rate_loop_nonneg_or_mem ranges, ?_⟩
    rintro rfl; rfl

/-- C8, at the inputs of the specification: ranges `[{44000, 48000}]` and a requested rate
of 192000 give `192000 / 4 = 48000`. -/
theorem sync_sample_rate_selects_witness :
    coreaudio_sync_device_sample_rate [⟨44000, 48000⟩] 192000 = 48000 := by
  have hq : f64_div 192000 (f64_of_int ((4 : Nat) : Int)) = 48000 := by decide!
  have h := (sync_sample_rate_selects [⟨44000, 48000⟩] 192000).1 4 (by decide) (by decide)
    (by rw [hq]; decide!)
    (by
      intro g hg1 hg4
      have hg : g = 1 ∨ g = 2 ∨ g = 3 := by omega
      rcases hg with rfl | rfl | rfl <;> decide!)
  rw [h, hq]

/-- C8, as stated, fails. With the single range `{-10, -5}` no quotient of the rate 44100
fits, and the rate written is 0, which is not the maximum -5 of the range. With the single
range from 33333.333333333336, the `Float64` nearest to `100000 / 3`, to 40000, none of the
exact quotients `100000 / f` lies inside the range, yet the rate written for 100000 is
that `Float64` and not the maximum 40000: the quotient is rounded before the range
test. -/
theorem sync_sample_rate_negative_maximum :
    (∀ f ∈ [1, 2, 3, 4], ¬ in_some_range [⟨-10, -5⟩] (f64_div 44100 (f64_of_int (f : Int)))) ∧
    coreaudio_sync_device_sample_rate [⟨-10, -5⟩] 44100 = 0 ∧
    (∀ x ∈ [(⟨-10, -5⟩ : AudioValueRange)],
      x.mMaximum ≠ coreaudio_sync_device_sample_rate [⟨-10, -5⟩] 44100) ∧
    (∀ f ∈ [(1 : ℚ), 2, 3, 4],
      ¬ in_some_range [⟨4581298449066667 / 137438953472, 40000⟩] (100000 / f)) ∧
    coreaudio_sync_device_sample_rate [⟨4581298449066667 / 137438953472, 40000⟩] 100000
      = 4581298449066667 / 137438953472 ∧
    (100000 : ℚ) / 3 < 4581298449066667 / 137438953472 := by
  decide!

/-! ### Channel layout -/

theorem layout_body_label (c : Nat) (m : List channel_position_t) (i : Nat)
    (d : Nat → AudioChannelDescription) (j : Nat) :
    (layout_body c m i d j).mChannelLabel
      = if j = c - 1 - i then
          position_label (m.getD i channel_position_t.CHANNEL_POSITION_INVALID)
        else (d j).mChannelLabel := by
  simp only [layout_body, position_label, Function.update_apply]
  split_ifs <;> first | rfl | (subst_vars; rfl) | (exfalso; omega)

theorem layout_body_flags (c : Nat) (m : List channel_position_t) (i : Nat)
    (d : Nat → AudioChannelDescription) (j : Nat) :
    (layout_body c m i d j).mChannelFlags
      = if j = i then kAudioChannelFlags_AllOff else (d j).mChannelFlags := by
  simp only [layout_body, Function.update_apply]
  split_ifs <;> first | rfl | (subst_vars; rfl)

theorem layout_body_coordinates (c : Nat) (m : List channel_position_t) (i : Nat)
    (d : Nat → AudioChannelDescription) (j : Nat) :
    (layout_body c m i d j).mCoordinates
      = if j = i then (0, 0, 0) else (d j).mCoordinates := by
  simp only [layout_body, Function.update_apply]
  split_ifs <;> first | rfl | (subst_vars; rfl)

theorem layout_loop_label (c : Nat) (m : List channel_position_t) (k : Nat) :
    ∀ (i : Nat) (d : Nat → AudioChannelDescription) (j : Nat), i + k ≤ c →
      (layout_loop c m k i d j).mChannelLabel
        = if j < c ∧ i ≤ c - 1 - j ∧ c - 1 - j < i + k then
            position_label (m.getD (c - 1 - j) channel_position_t.CHANNEL_POSITION_INVALID)
          else (d j).mChannelLabel := by
  induction k with
  | zero =>
    intro i d j _
    simp only [layout_loop]
    rw [if_neg (by omega)]
  | succ k ih =>
    intro i d j hle
    simp only [layout_loop]
    rw [ih (i + 1) _ j (by omega), layout_body_label]
    by_cases h1 : j < c ∧ i + 1 ≤ c - 1 - j ∧ c - 1 - j < i + 1 + k
    · rw [if_pos h1, if_pos (by omega)]
    · rw [if_neg h1]
      by_cases h2 : j = c - 1 - i
      · have hi : c - 1 - j = i := by omega
        rw [if_pos h2, if_pos (by omega), hi]
      · rw [if_neg h2, if_neg (by omega)]

theorem layout_loop_flags (c : Nat) (m : List channel_position_t) (k : Nat) :
    ∀ (i : Nat) (d : Nat → AudioChannelDescription) (j : Nat),
      (layout_loop c m k i d j).mChannelFlags
        = if i ≤ j ∧ j < i + k then kAudioChannelFlags_AllOff else (d j).mChannelFlags := by
  induction k with
  | zero =>
    intro i d j
    simp only [layout_loop]
    rw [if_neg (by omega)]
  | succ k ih =>
    intro i d j
    simp only [layout_loop]
    rw [ih (i + 1) _ j, layout_body_flags]
    by_cases h1 : i + 1 ≤ j ∧ j < i + 1 + k
    · rw [if_pos h1, if_pos (by omega)]
    · rw [if_neg h1]
      by_cases h2 : j = i
      · rw [if_pos h2, if_pos (by omega)]
      · rw [if_neg h2, if_neg (by omega)]

theorem layout_loop_coordinates (c : Nat) (m : List channel_position_t) (k : Nat) :
    ∀ (i : Nat) (d : Nat → AudioChannelDescription) (j : Nat),
      (layout_loop c m k i d j).mCoordinates
        = if i ≤ j ∧ j < i + k then (0, 0, 0) else (d j).mCoordinates := by
  induction k with
  | zero =>
    intro i d j
    simp only [layout_loop]
    rw [if_neg (by omega)]
  | succ k ih =>
    intro i d j
    simp only [layout_loop]
    rw [ih (i + 1) _ j, layout_body_coordinates]
    by_cases h1 : i + 1 ≤ j ∧ j < i + 1 + k
    · rw [if_pos h1, if_pos (by omega)]
    · rw [if_neg h1]
      by_cases h2 : j = i
      · rw [if_pos h2, if_pos (by omega)]
      · rw [if_neg h2, if_neg (by omega)]

theorem label_scan_of_absent (pos : channel_position_t)
    (table : List (channel_position_t × AudioChannelLabel)) (label : AudioChannelLabel)
    (h : ∀ e ∈ table, e.1 ≠ pos) : label_scan pos table label = label := by
  induction table with
  | nil => rfl
  | cons e es ih =>
    have he : ¬ pos = e.1 := fun hp => h e (List.mem_cons_self _ _) hp.symm
    simp only [label_scan, if_neg he]
    exact ih (fun x hx => h x (List.mem_cons_of_mem _ hx))

/-- C9: for a position map of length `n`, the layout built by
`coreaudio_set_channel_position` has `n` descriptions; description `k < n` carries the
label of `map[n-1-k]`, and has flags `kAudioChannelFlags_AllOff` and coordinates
`(0, 0, 0)`, whatever the allocated memory held. The label of a position is its entry in
`coreaudio_channel_mapping`, and `kAudioChannelLabel_Mono` for a position the table does
not name. -/
theorem channel_layout_reversed (n : Nat) (map : List channel_position_t)
    (uninit : Nat → AudioChannelDescription) (hlen : map.length = n) :
    (coreaudio_set_channel_position n map uninit).mNumberChannelDescriptions = n ∧
    (∀ (k : Nat) (hk : k < n),
      ((coreaudio_set_channel_position n map uninit).mChannelDescriptions k).mChannelLabel
        = position_label (map.get ⟨n - 1 - k, by omega⟩) ∧
      ((coreaudio_set_channel_position n map uninit).mChannelDescriptions k).mChannelFlags
        = kAudioChannelFlags_AllOff ∧
      ((coreaudio_set_channel_position n map uninit).mChannelDescriptions k).mCoordinates
        = (0, 0, 0)) ∧
    (∀ e ∈ coreaudio_channel_mapping, position_label e.1 = e.2) ∧
    (∀ pos : channel_position_t, (∀ e ∈ coreaudio_channel_mapping, e.1 ≠ pos) →
      position_label pos = AudioChannelLabel.kAudioChannelLabel_Mono) := by
  refine ⟨rfl, ?_, by decide, ?_⟩
  · intro k hk
    simp only [coreaudio_set_channel_position]
    refine ⟨?_, ?_, ?_⟩
    · rw [layout_loop_label n map n 0 uninit k (by omega), if_pos (by omega)]
      congr 1
      rw [List.getD_eq_getElem _ _ (by omega)]
      rfl
    · rw [layout_loop_flags, if_pos (by omega)]
    · rw [layout_loop_coordinates, if_pos (by omega)]
  · intro pos h
    exact label_scan_of_absent pos _ _ h

/-- C9, at the inputs of the specification: two channels with the map `[LEFT, RIGHT]`
give the label Right at index 0 and the label Left at index 1. -/
theorem channel_layout_reversed_witness :
    ((coreaudio_set_channel_position 2
        [channel_position_t.CHANNEL_POSITION_LEFT, channel_position_t.CHANNEL_POSITION_RIGHT]
        (fun _ => stale_description)).mChannelDescriptions 0).mChannelLabel
      = AudioChannelLabel.kAudioChannelLabel_Right ∧
    ((coreaudio_set_channel_position 2
        [channel_position_t.CHANNEL_POSITION_LEFT, channel_position_t.CHANNEL_POSITION_RIGHT]
        (fun _ => stale_description)).mChannelDescriptions 1).mChannelLabel
      = AudioChannelLabel.kAudioChannelLabel_Left := by
  have h := (channel_layout_reversed 2
    [channel_position_t.CHANNEL_POSITION_LEFT, channel_position_t.CHANNEL_POSITION_RIGHT]
    (fun _ => stale_description) rfl).2.1
  exact ⟨(h 0 (by decide)).1, (h 1 (by decide)).1⟩

/-! ### Drop and the callback wake -/

theorem flush_dropping (s : State) (lock_ok drop : Bool) :
    (coreaudio_flush_buffer s lock_ok drop).dropping
      = if s.coreaudio_buffer_size ≠ 0 then drop else s.dropping := by
  cases lock_ok <;> by_cases hp : s.partial_ = true <;>
    by_cases h : s.coreaudio_buffer_size = 0 <;>
      simp [coreaudio_flush_buffer, State.emit, hp, h]

theorem flush_size (s : State) (lock_ok drop : Bool) :
    (coreaudio_flush_buffer s lock_ok drop).coreaudio_buffer_size = 0 := by
  cases lock_ok <;> by_cases hp : s.partial_ = true <;>
    by_cases h : s.coreaudio_buffer_size = 0 <;>
      simp [coreaudio_flush_buffer, State.emit, hp, h]

theorem flush_cb_waiting (s : State) (lock_ok drop : Bool) :
    (coreaudio_flush_buffer s lock_ok drop).cb_waiting = s.cb_waiting := by
  cases lock_ok <;> by_cases hp : s.partial_ = true <;>
    by_cases h : s.coreaudio_buffer_size = 0 <;>
      simp [coreaudio_flush_buffer, State.emit, hp, h]

theorem write_flags (s : State) (buf : Nat → Nat) (n : Int) :
    (coreaudio_write s buf n).1.dropping = s.dropping ∧
    (coreaudio_write s buf n).1.cb_waiting = s.cb_waiting ∧
    (coreaudio_write s buf n).1.stopping = s.stopping := by
  unfold coreaudio_write
  by_cases hz : u32_sub s.coreaudio_buffer_size n = 0 <;> simp [hz, State.emit]

/-- A step that is not a drop leaves `dropping` false. -/
theorem step_keeps_not_dropping (s : State) (op : Op) (hd : s.dropping = false)
    (hop : op.is_drop = false) : (step s op).1.dropping = false := by
  cases op with
  | write buf cnt => simpa [step, (write_flags s buf cnt).1] using hd
  | buffer_space =>
    by_cases h : s.coreaudio_buffer_size = 0 <;>
      simp [step, coreaudio_buffer_space, State.emit, h, hd]
  | pause lock_ok stop_ok =>
    simp only [step, coreaudio_pause, State.emit]
    rw [flush_dropping]
    split_ifs <;> simp [hd]
  | unpause start_ok => simp [step, coreaudio_unpause, State.emit, hd]
  | drop lock_ok => simp [Op.is_drop] at hop
  | close lock_ok =>
    simp only [step, coreaudio_close, State.emit]
    rw [flush_dropping]
    split_ifs <;> simp [hd]
  | callback_publish lock_ok mData n =>
    cases lock_ok <;> by_cases hs : s.stopping = true <;>
      simp [step, coreaudio_play_callback_publish, State.emit, hs, hd]
  | callback_wake => simp [step, coreaudio_play_callback_wake, State.emit]

/-- With `dropping` false and no drop in the schedule, every wake returns `noErr`. -/
theorem run_without_drop (ops : List Op) :
    ∀ s : State, s.dropping = false → (∀ op ∈ ops, op.is_drop = false) →
      (run s ops).2 = List.replicate (ops.countP Op.is_wake) OSStatus.noErr := by
  induction ops with
  | nil => intro s _ _; rfl
  | cons op ops ih =>
    intro s hd hops
    have h1 := step_keeps_not_dropping s op hd (hops op (List.mem_cons_self _ _))
    have h2 := ih (step s op).1 h1 (fun o ho => hops o (List.mem_cons_of_mem _ ho))
    simp only [run, h2]
    cases op <;> simp [step, Op.is_wake, coreaudio_play_callback_wake, hd, List.replicate_succ]

/-- While the callback is blocked on a drained slot, an enabled step other than a wake
keeps the slot drained, the callback blocked and `dropping` as it is. -/
theorem step_keeps_pending (s : State) (op : Op) (hsz : s.coreaudio_buffer_size = 0)
    (hw : s.cb_waiting = true) (hen : enabled s op = true) (hop : op.is_wake = false) :
    (step s op).1.coreaudio_buffer_size = 0 ∧ (step s op).1.cb_waiting = true ∧
    (step s op).1.dropping = s.dropping ∧ (step s op).2 = none := by
  cases op with
  | write buf cnt =>
    simp only [enabled, hsz, decide_eq_true_eq] at hen
    have hc : cnt = 0 := by omega
    subst hc
    refine ⟨?_, ?_, (write_flags s buf 0).1, rfl⟩
    · simp only [step, write_size, hsz]; decide
    · simpa [step, (write_flags s buf 0).2.1] using hw
  | buffer_space => simp [step, coreaudio_buffer_space, State.emit, hsz, hw]
  | pause lock_ok stop_ok =>
    simp [step, coreaudio_pause, State.emit, flush_dropping, flush_size, flush_cb_waiting,
      hsz, hw]
  | unpause start_ok => simp [step, coreaudio_unpause, State.emit, hsz, hw]
  | drop lock_ok =>
    simp [step, coreaudio_drop, flush_dropping, flush_size, flush_cb_waiting, hsz, hw]
  | close lock_ok =>
    simp [step, coreaudio_close, State.emit, flush_dropping, flush_size, flush_cb_waiting,
      hsz, hw]
  | callback_publish lock_ok mData n => simp [enabled, hw] at hen
  | callback_wake => simp [Op.is_wake] at hop

theorem run_keeps_pending (ops : List Op) :
    ∀ s : State, s.coreaudio_buffer_size = 0 → s.cb_waiting = true → valid s ops = true →
      (∀ op ∈ ops, op.is_wake = false) →
      (run s ops).1.coreaudio_buffer_size = 0 ∧ (run s ops).1.cb_waiting = true ∧
      (run s ops).1.dropping = s.dropping ∧ (run s ops).2 = [] := by
  induction ops with
  | nil => intro s hsz hw _ _; exact ⟨hsz, hw, rfl, rfl⟩
  | cons op ops ih =>
    intro s hsz hw hv hops
    simp only [valid, Bool.and_eq_true] at hv
    obtain ⟨h1, h2, h3, h4⟩ :=
      step_keeps_pending s op hsz hw hv.1 (hops op (List.mem_cons_self _ _))
    obtain ⟨g1, g2, g3, g4⟩ :=
      ih (step s op).1 h1 h2 hv.2 (fun o ho => hops o (List.mem_cons_of_mem _ ho))
    refine ⟨g1, g2, by rw [← h3]; exact g3, ?_⟩
    simp [run, h4, g4]

theorem run_append (ops1 ops2 : List Op) :
    ∀ s : State, run s (ops1 ++ ops2)
      = ((run (run s ops1).1 ops2).1, (run s ops1).2 ++ (run (run s ops1).1 ops2).2) := by
  induction ops1 with
  | nil => intro s; simp [run]
  | cons op ops ih => intro s; simp [run, ih]

/-- C4, as amended: `coreaudio_drop` is called while a slot is outstanding
(`coreaudio_buffer_size ≠ 0`) and the callback is blocked on it in `pthread_cond_wait`.
Whatever enabled steps of the producer come before the next wake of the callback, that
wake reads `dropping = true`, returns `kAudioUnitErr_NoConnection` and resets `dropping` to
false; in every continuation without another drop each later wake returns `noErr`. So the
statuses returned by the wakes of the whole schedule are one `kAudioUnitErr_NoConnection`
followed by `noErr` only. -/
theorem drop_observed_by_one_wake (s : State) (lock_ok : Bool) (pre post : List Op)
    (hsize : s.coreaudio_buffer_size ≠ 0) (hwait : s.cb_waiting = true)
    (hvalid : valid (coreaudio_drop s lock_ok).1 pre = true)
    (hpre : ∀ op ∈ pre, op.is_wake = false) (hpost : ∀ op ∈ post, op.is_drop = false) :
    (run (coreaudio_drop s lock_ok).1 pre).1.dropping = true ∧
    (run (coreaudio_drop s lock_ok).1 pre).1.cb_waiting = true ∧
    (run (coreaudio_drop s lock_ok).1 pre).2 = [] ∧
    (coreaudio_play_callback_wake (run (coreaudio_drop s lock_ok).1 pre).1).2
      = OSStatus.kAudioUnitErr_NoConnection ∧
    (coreaudio_play_callback_wake (run (coreaudio_drop s lock_ok).1 pre).1).1.dropping
      = false ∧
    (run (coreaudio_play_callback_wake (run (coreaudio_drop s lock_ok).1 pre).1).1 post).2
      = List.replicate (post.countP Op.is_wake) OSStatus.noErr ∧
    (run s (Op.drop lock_ok :: pre ++ Op.callback_wake :: post)).2
      = OSStatus.kAudioUnitErr_NoConnection
          :: List.replicate (post.countP Op.is_wake) OSStatus.noErr := by
  have hd : (coreaudio_drop s lock_ok).1.dropping = true := by
    simp [coreaudio_drop, flush_dropping, hsize]
  have hz : (coreaudio_drop s lock_ok).1.coreaudio_buffer_size = 0 := by
    simp [coreaudio_drop, flush_size]
  have hw : (coreaudio_drop s lock_ok).1.cb_waiting = true := by
    simp [coreaudio_drop, flush_cb_waiting, hwait]
  obtain ⟨_, g2, g3, g4⟩ := run_keeps_pending pre _ hz hw hvalid hpre
  rw [hd] at g3
  have hwake2 : (coreaudio_play_callback_wake (run (coreaudio_drop s lock_ok).1 pre).1).2
      = OSStatus.kAudioUnitErr_NoConnection := by
    simp [coreaudio_play_callback_wake, g3]
  have hwake1 : (coreaudio_play_callback_wake (run (coreaudio_drop s lock_ok).1 pre).1).1.dropping
      = false := by
    simp [coreaudio_play_callback_wake, State.emit]
  have hpost2 := run_without_drop post _ hwake1 hpost
  refine ⟨g3, g2, g4, hwake2, hwake1, hpost2, ?_⟩
  have hstep : step s (Op.drop lock_ok) = ((coreaudio_drop s lock_ok).1, none) := rfl
  rw [List.cons_append]
  simp only [run, hstep, run_append, g4]
  simp [step, hwake2, hpost2]

/-- C4, at concrete inputs: a drop on the published slot, a zero-byte write, the wake of
the blocked callback, then a new callback cycle in which the producer asks for the buffer
space and fills the slot with one write. The two wakes return
`kAudioUnitErr_NoConnection` and `noErr`. -/
theorem drop_observed_by_one_wake_witness :
    (run published_state
      (Op.drop true :: [Op.write sample_buf 0] ++ Op.callback_wake ::
        [Op.callback_publish true 2000 8, Op.buffer_space, Op.write sample_buf 8,
          Op.callback_wake])).2
      = [OSStatus.kAudioUnitErr_NoConnection, OSStatus.noErr] :=
  (drop_observed_by_one_wake published_state true [Op.write sample_buf 0]
    [Op.callback_publish true 2000 8, Op.buffer_space, Op.write sample_buf 8,
      Op.callback_wake]
    (by decide) (by decide) (by decide) (by decide) (by decide)).2.2.2.2.2.2

/-- C4, as stated, fails: the callback returns from `pthread_cond_wait`, which is not
called in a loop, while the published slot of 8 bytes is still outstanding. A drop is
called in that state, the next callback publishes a slot, and a pause comes before its
wake: the schedule is valid, and the next wake after the drop reads `dropping = false` and
returns `noErr`. -/
theorem drop_after_early_wake_unobserved :
    (coreaudio_play_callback_wake published_state).1.coreaudio_buffer_size ≠ 0 ∧
    valid published_state
      [Op.callback_wake, Op.drop true, Op.callback_publish true 2000 8, Op.pause true true,
        Op.callback_wake] = true ∧
    (run (coreaudio_play_callback_wake published_state).1
      [Op.drop true, Op.callback_publish true 2000 8, Op.pause true true]).1.dropping
        = false ∧
    (run (coreaudio_play_callback_wake published_state).1
      [Op.drop true, Op.callback_publish true 2000 8, Op.pause true true,
        Op.callback_wake]).2 = [OSStatus.noErr] := by
  decide

/-- A call of `coreaudio_buffer_space` taken as a step does not wait: it locks and unlocks,
and it is the call for every behaviour `env` of the other threads. -/
theorem buffer_space_step_no_wait (s : State) (env : State → State)
    (h : enabled s Op.buffer_space = true) :
    (step s Op.buffer_space).1 = (coreaudio_buffer_space s env).1 ∧
    (step s Op.buffer_space).1.trace = s.trace ++ [Event.mutex_lock, Event.mutex_unlock] := by
  have hne : s.coreaudio_buffer_size ≠ 0 := by simpa [enabled] using h
  simp [step, buffer_space_ready s env hne, buffer_space_ready s id hne, State.emit]

/-! ### Outcome of a flush -/

theorem flush_clears_short (s : State) (lock_ok drop : Bool) :
    (coreaudio_flush_buffer s lock_ok drop).partial_ = false := by
  cases lock_ok <;> by_cases hp : s.partial_ = true <;>
    by_cases h : s.coreaudio_buffer_size = 0 <;>
      simp [coreaudio_flush_buffer, State.emit, hp, h]

theorem flush_trace (s : State) (lock_ok drop : Bool) :
    (coreaudio_flush_buffer s lock_ok drop).trace
      = s.trace ++ (if lock_ok then [Event.mutex_lock, Event.cond_signal, Event.mutex_unlock]
          else [Event.mutex_lock, Event.cond_signal]) := by
  cases lock_ok <;> by_cases hp : s.partial_ = true <;>
    by_cases h : s.coreaudio_buffer_size = 0 <;>
      simp [coreaudio_flush_buffer, State.emit, hp, h]

/-- C12: for every state and both values of `d`, `coreaudio_flush_buffer(d)` ends with
`partial` false and `coreaudio_buffer_size` zero, calls `pthread_cond_signal` exactly once
(between the lock and, when the lock was granted, the unlock), sets `dropping` to `d` when a
slot was outstanding at entry and leaves `dropping` as it was when none was. So a drop
with an outstanding slot yields `dropping = true` and a pause `dropping = false`. -/
theorem flush_buffer_outcome (s : State) (lock_ok d : Bool) :
    (coreaudio_flush_buffer s lock_ok d).partial_ = false ∧
    (coreaudio_flush_buffer s lock_ok d).coreaudio_buffer_size = 0 ∧
    (coreaudio_flush_buffer s lock_ok d).signals = s.signals + 1 ∧
    (coreaudio_flush_buffer s lock_ok d).trace
      = s.trace ++ (if lock_ok then [Event.mutex_lock, Event.cond_signal, Event.mutex_unlock]
          else [Event.mutex_lock, Event.cond_signal]) ∧
    (s.coreaudio_buffer_size ≠ 0 → (coreaudio_flush_buffer s lock_ok d).dropping = d) ∧
    (s.coreaudio_buffer_size = 0 →
      (coreaudio_flush_buffer s lock_ok d).dropping = s.dropping) ∧
    (s.coreaudio_buffer_size ≠ 0 → (coreaudio_drop s lock_ok).1.dropping = true) ∧
    (s.coreaudio_buffer_size ≠ 0 →
      (coreaudio_flush_buffer s lock_ok false).dropping = false) := by
  refine ⟨flush_clears_short s lock_ok d, flush_size s lock_ok d, ?_, flush_trace s lock_ok d,
    ?_, ?_, ?_, ?_⟩
  · unfold State.signals
    rw [flush_trace]
    cases lock_ok <;> simp
  · intro h; rw [flush_dropping, if_pos h]
  · intro h; rw [flush_dropping, if_neg (by simpa using h)]
  · intro h; simp [coreaudio_drop, flush_dropping, h]
  · intro h; rw [flush_dropping, if_pos h]

/-- C12, at concrete inputs: a drop and a pause of the published slot of 8 bytes. -/
theorem flush_buffer_outcome_witness :
    (coreaudio_drop published_state true).1.dropping = true ∧
    (coreaudio_flush_buffer published_state true false).dropping = false ∧
    (coreaudio_flush_buffer published_state true true).signals = published_state.signals + 1 :=
  ⟨(flush_buffer_outcome published_state true true).2.2.2.2.2.2.1 (by decide),
   (flush_buffer_outcome published_state true false).2.2.2.2.2.2.2 (by decide),
   (flush_buffer_outcome published_state true true).2.2.1⟩

/-! ### Data-path conservation -/

theorem write_mem (s : State) (buf : Nat → Nat) (n : Int) :
    (coreaudio_write s buf n).1.mem = memcpy s.mem s.coreaudio_buffer buf (to_size_t n) := by
  unfold coreaudio_write
  by_cases hz : u32_sub s.coreaudio_buffer_size n = 0 <;> simp [hz, State.emit]

theorem write_buffer (s : State) (buf : Nat → Nat) (n : Int) :
    (coreaudio_write s buf n).1.coreaudio_buffer
      = if u32_sub s.coreaudio_buffer_size n = 0 then s.coreaudio_buffer
        else s.coreaudio_buffer + n := by
  unfold coreaudio_write
  by_cases hz : u32_sub s.coreaudio_buffer_size n = 0 <;> simp [hz, State.emit]

theorem mem_bytes_add (m : Memory) (P : Int) (a b : Nat) :
    mem_bytes m P (a + b) = mem_bytes m P a ++ mem_bytes m (P + a) b := by
  unfold mem_bytes
  rw [List.range_add, List.map_append, List.map_map]
  congr 1
  apply List.map_congr_left
  intro i _
  simp only [Function.comp]
  congr 1
  push_cast
  ring

theorem mem_bytes_congr (m1 m2 : Memory) (P : Int) (n : Nat)
    (h : ∀ a : Int, P ≤ a → a < P + n → m1 a = m2 a) : mem_bytes m1 P n = mem_bytes m2 P n := by
  unfold mem_bytes
  apply List.map_congr_left
  intro i hi
  have hi2 := List.mem_range.1 hi
  exact h _ (by omega) (by omega)

theorem mem_bytes_memcpy (m : Memory) (P : Int) (buf : Nat → Nat) (n : Nat) :
    mem_bytes (memcpy m P buf n) P n = (List.range n).map buf := by
  unfold mem_bytes memcpy
  apply List.map_congr_left
  intro i hi
  have hi2 := List.mem_range.1 hi
  rw [if_pos ⟨by omega, by omega⟩]
  congr 1
  omega

/-- Writes with non-negative counts that fit the remaining capacity: the capacity drops by
the bytes written, the bytes land one after the other from the position of
`coreaudio_buffer` on, and nothing else in memory changes. -/
theorem write_seq_conserves (ws : List WriteCall) :
    ∀ t : State, t.coreaudio_buffer_size < 2 ^ 32 → (∀ w ∈ ws, 0 ≤ w.2) →
      (ws.map Prod.snd).sum ≤ (t.coreaudio_buffer_size : Int) →
      (((write_seq t ws).coreaudio_buffer_size : Nat) : Int)
        = (t.coreaudio_buffer_size : Int) - (ws.map Prod.snd).sum ∧
      (∀ a : Int, ¬ (t.coreaudio_buffer ≤ a ∧ a < t.coreaudio_buffer + (ws.map Prod.snd).sum) →
        (write_seq t ws).mem a = t.mem a) ∧
      mem_bytes (write_seq t ws).mem t.coreaudio_buffer (ws.map Prod.snd).sum.toNat
        = written_bytes ws ∧
      ((ws.map Prod.snd).sum < (t.coreaudio_buffer_size : Int) →
        (write_seq t ws).coreaudio_buffer = t.coreaudio_buffer + (ws.map Prod.snd).sum) := by
  induction ws with
  | nil =>
    intro t _ _ _
    simp [write_seq, written_bytes, mem_bytes]
  | cons w ws ih =>
    intro t hlt hnn hsum
    have hw : 0 ≤ w.2 := hnn w (List.mem_cons_self _ _)
    have hrest : ∀ v ∈ ws, 0 ≤ v.2 := fun v hv => hnn v (List.mem_cons_of_mem _ hv)
    have hr := sum_counts_nonneg ws hrest
    simp only [List.map_cons, List.sum_cons] at hsum ⊢
    have hle : w.2 ≤ (t.coreaudio_buffer_size : Int) := by omega
    have hsub := u32_sub_of_le t.coreaudio_buffer_size w.2 hlt hw hle
    have hcnt := to_size_t_of_nonneg t.coreaudio_buffer_size w.2 hlt hw hle
    have hsz := write_size t w.1 w.2
    have hmem := write_mem t w.1 w.2
    have hbuf := write_buffer t w.1 w.2
    have hlt1 : (coreaudio_write t w.1 w.2).1.coreaudio_buffer_size < 2 ^ 32 := by
      rw [hsz]; exact u32_sub_lt _ _
    have hsum1 : (ws.map Prod.snd).sum
        ≤ ((coreaudio_write t w.1 w.2).1.coreaudio_buffer_size : Int) := by
      rw [hsz, hsub]; omega
    obtain ⟨i1, i2, i3, i4⟩ := ih _ hlt1 hrest hsum1
    simp only [write_seq]
    -- the bytes of this call, as the memory holds them right after it
    have hfirst : ∀ a : Int, t.coreaudio_buffer ≤ a → a < t.coreaudio_buffer + w.2 →
        (coreaudio_write t w.1 w.2).1.mem a = w.1 (a - t.coreaudio_buffer).toNat := by
      intro a h1 h2
      rw [hmem]
      simp only [memcpy, hcnt]
      rw [if_pos ⟨h1, h2⟩]
    have hother : ∀ a : Int, ¬ (t.coreaudio_buffer ≤ a ∧ a < t.coreaudio_buffer + w.2) →
        (coreaudio_write t w.1 w.2).1.mem a = t.mem a := by
      intro a h
      rw [hmem]
      simp only [memcpy, hcnt]
      rw [if_neg h]
    have htoNat : (w.2 + (ws.map Prod.snd).sum).toNat
        = w.2.toNat + (ws.map Prod.snd).sum.toNat := Int.toNat_add hw hr
    have hwN : ((w.2.toNat : Nat) : Int) = w.2 := Int.toNat_of_nonneg hw
    by_cases hz : u32_sub t.coreaudio_buffer_size w.2 = 0
    · -- the call drains the slot: `coreaudio_buffer` stays, the rest are zero-byte writes
      have hfull : w.2 = (t.coreaudio_buffer_size : Int) := by
        rw [hz] at hsub; simp at hsub; omega
      have hs0 : (ws.map Prod.snd).sum = 0 := by omega
      rw [if_pos hz] at hbuf
      rw [hbuf, hs0] at i2 i3
      simp only [add_zero, Int.toNat_zero] at i2 i3
      have hsame : ∀ a : Int, (write_seq (coreaudio_write t w.1 w.2).1 ws).mem a
          = (coreaudio_write t w.1 w.2).1.mem a := fun a => i2 a (by omega)
      refine ⟨?_, ?_, ?_, ?_⟩
      · rw [i1, hsz, hsub]; omega
      · intro a h
        rw [hsame, hother a (by omega)]
      · rw [htoNat, hs0, Int.toNat_zero, Nat.add_zero, written_bytes, ← i3]
        have : mem_bytes (write_seq (coreaudio_write t w.1 w.2).1 ws).mem t.coreaudio_buffer 0
            = [] := rfl
        rw [this, List.append_nil]
        unfold mem_bytes call_bytes
        apply List.map_congr_left
        intro i hi
        have hi2 := List.mem_range.1 hi
        rw [hsame, hfirst _ (by omega) (by omega)]
        have hidx : (t.coreaudio_buffer + (i : Int) - t.coreaudio_buffer).toNat = i := by omega
        rw [hidx]
      · intro h; omega
    · -- a short write: `coreaudio_buffer` moves past the bytes just written
      rw [if_neg hz] at hbuf
      rw [hbuf] at i2 i3 i4
      refine ⟨?_, ?_, ?_, ?_⟩
      · rw [i1, hsz, hsub]; omega
      · intro a h
        rw [i2 a (by omega), hother a (by omega)]
      · rw [htoNat, mem_bytes_add, written_bytes, hwN, i3]
        congr 1
        unfold mem_bytes call_bytes
        apply List.map_congr_left
        intro i hi
        have hi2 := List.mem_range.1 hi
        rw [i2 _ (by omega), hfirst _ (by omega) (by omega)]
        have hidx : (t.coreaudio_buffer + (i : Int) - t.coreaudio_buffer).toNat = i := by omega
        rw [hidx]
      · intro h
        rw [i4 (by rw [hsz, hsub]; omega)]
        ring

theorem publish_slot (s : State) (B : Int) (C : Nat) (hstop : s.stopping = false)
    (hC : C < 2 ^ 32) :
    (coreaudio_play_callback_publish s true B C).1.coreaudio_buffer = B ∧
    (coreaudio_play_callback_publish s true B C).1.coreaudio_buffer_size = C ∧
    (coreaudio_play_callback_publish s true B C).2 = none := by
  have hmod : C % 2 ^ 32 = C := Nat.mod_eq_of_lt hC
  simp only [coreaudio_play_callback_publish, hstop, State.emit, hmod]
  simp

/-- C13: the callback publishes a slot of capacity `C` at base address `B`; then for every
sequence of `coreaudio_write` calls with non-negative counts whose running sum never
exceeds `C`, after each call (after the first `k` calls, for every `k`) the bytes written
so far plus `coreaudio_buffer_size` equal `C`, the slot memory from `B` on holds the
written buffers one after the other in call order, and, while the sum is below `C`,
`coreaudio_buffer` is `B` plus the sum. -/
theorem write_data_conservation (s : State) (B : Int) (C : Nat) (ws : List WriteCall)
    (k : Nat) (hstop : s.stopping = false) (hC : C < 2 ^ 32) (hnn : ∀ w ∈ ws, 0 ≤ w.2)
    (hrun : ∀ j : Nat, total_count (ws.take j) ≤ (C : Int)) :
    total_count (ws.take k)
        + ((write_seq (coreaudio_play_callback_publish s true B C).1
            (ws.take k)).coreaudio_buffer_size : Int) = (C : Int) ∧
    mem_bytes (write_seq (coreaudio_play_callback_publish s true B C).1 (ws.take k)).mem B
        (total_count (ws.take k)).toNat = written_bytes (ws.take k) ∧
    (total_count (ws.take k) < (C : Int) →
      (write_seq (coreaudio_play_callback_publish s true B C).1 (ws.take k)).coreaudio_buffer
        = B + total_count (ws.take k)) := by
  obtain ⟨hb, hs, _⟩ := publish_slot s B C hstop hC
  have hnn2 : ∀ w ∈ ws.take k, 0 ≤ w.2 := fun w hw => hnn w (List.mem_of_mem_take hw)
  have hsum := hrun k
  unfold total_count at hsum ⊢
  obtain ⟨h1, _, h3, h4⟩ := write_seq_conserves (ws.take k)
    (coreaudio_play_callback_publish s true B C).1 (by rw [hs]; exact hC) hnn2
    (by rw [hs]; exact hsum)
  rw [hb] at h3 h4
  rw [hs] at h1 h4
  exact ⟨by rw [h1]; ring, h3, h4⟩

/-- C13, at concrete inputs: a slot of 8 bytes at address 1000 and the writes of 3, 0 and 5
bytes. After the first two calls 3 bytes are written and 5 remain, the memory from 1000
on holds the bytes 1, 2, 3 and `coreaudio_buffer` is 1003. -/
theorem write_data_conservation_witness :
    ((write_seq (coreaudio_play_callback_publish initial_state true 1000 8).1
      [(sample_buf, 3), (sample_buf, 0)]).coreaudio_buffer_size : Int) = 5 ∧
    mem_bytes (write_seq (coreaudio_play_callback_publish initial_state true 1000 8).1
      [(sample_buf, 3), (sample_buf, 0)]).mem 1000 3 = [1, 2, 3] ∧
    (write_seq (coreaudio_play_callback_publish initial_state true 1000 8).1
      [(sample_buf, 3), (sample_buf, 0)]).coreaudio_buffer = 1003 := by
  have h := write_data_conservation initial_state 1000 8
    [(sample_buf, 3), (sample_buf, 0), (sample_buf, 5)] 2 rfl (by decide) (by decide)
    (by
      intro j
      match j with
      | 0 => decide
      | 1 => decide
      | 2 => decide
      | j + 3 => simp [total_count])
  have hk : List.take 2 [(sample_buf, (3 : Int)), (sample_buf, (0 : Int)), (sample_buf, (5 : Int))]
      = [(sample_buf, 3), (sample_buf, 0)] := rfl
  have ht : total_count [(sample_buf, (3 : Int)), (sample_buf, (0 : Int))] = 3 := by decide
  rw [hk, ht] at h
  refine ⟨by have := h.1; omega, ?_, ?_⟩
  · have h2 := h.2.1
    have hw : written_bytes [(sample_buf, (3 : Int)), (sample_buf, (0 : Int))] = [1, 2, 3] := by
      decide
    rw [hw] at h2
    exact h2
  · have h3 := h.2.2 (by decide)
    rw [h3]; rfl

/-! ### Volume round trip -/

/-- The volumes 0..100 through `volume_scalar` and back through `scalar_volume`, by
evaluation: all come back unchanged but 53 and 59, which come back one lower. -/
theorem volume_round_trip_table : ∀ k : Nat, k < 101 →
    scalar_volume (volume_scalar (k : Int))
      = if (k : Int) = 53 ∨ (k : Int) = 59 then (k : Int) - 1 else (k : Int) := by
  decide!

/-- The scalars of the volumes 0..100, by evaluation: each lies in `[0, 1]` and within half
a unit in the last place, `2 ^ (-25)`, of `k / 100`. -/
theorem volume_scalar_table : ∀ k : Nat, k < 101 →
    0 ≤ volume_scalar (k : Int) ∧ volume_scalar (k : Int) ≤ 1 ∧
    |volume_scalar (k : Int) - (k : ℚ) / 100| ≤ 1 / 2 ^ 25 := by
  decide!

/-- The volumes that survive the round trip: with `coreaudio_max_volume = 100`, two distinct
stereo channel elements and a device that stores each scalar as written, a
`coreaudio_mixer_set_volume(l, r)` with
`l` and `r` in 0..100 whose writes succeed returns success and stores for each channel the
`Float32` quotient of the volume by 100, a value in `[0, 1]` within `2 ^ (-25)` of
`l / 100`; `coreaudio_mixer_get_volume` right after it returns success and, for each
channel, the volume that was set, except for the volumes 53 and 59, which are returned as
52 and 58. -/
theorem mixer_volume_round_trip (dev : Nat → ℚ) (ch0 ch1 : Nat) (l r : Int) (hch : ch0 ≠ ch1)
    (hl0 : 0 ≤ l) (hl : l ≤ 100) (hr0 : 0 ≤ r) (hr : r ≤ 100) :
    (coreaudio_mixer_set_volume dev (ch0, ch1) true true l r).2 = 0 ∧
    (coreaudio_mixer_set_volume dev (ch0, ch1) true true l r).1 ch0 = volume_scalar l ∧
    (coreaudio_mixer_set_volume dev (ch0, ch1) true true l r).1 ch1 = volume_scalar r ∧
    (0 ≤ volume_scalar l ∧ volume_scalar l ≤ 1 ∧ |volume_scalar l - (l : ℚ) / 100| ≤ 1 / 2 ^ 25) ∧
    (0 ≤ volume_scalar r ∧ volume_scalar r ≤ 1 ∧ |volume_scalar r - (r : ℚ) / 100| ≤ 1 / 2 ^ 25) ∧
    coreaudio_mixer_get_volume (coreaudio_mixer_set_volume dev (ch0, ch1) true true l r).1
        (ch0, ch1) true true
      = ((if l = 53 ∨ l = 59 then l - 1 else l, if r = 53 ∨ r = 59 then r - 1 else r), 0) := by
  obtain ⟨a, rfl⟩ := Int.eq_ofNat_of_zero_le hl0
  obtain ⟨b, rfl⟩ := Int.eq_ofNat_of_zero_le hr0
  have ha : a < 101 := by omega
  have hb : b < 101 := by omega
  have h0 : (coreaudio_mixer_set_volume dev (ch0, ch1) true true a b).1 ch0
      = volume_scalar a := by
    simp [coreaudio_mixer_set_volume, Function.update_apply, hch]
  have h1 : (coreaudio_mixer_set_volume dev (ch0, ch1) true true a b).1 ch1
      = volume_scalar b := by
    simp [coreaudio_mixer_set_volume, Function.update_apply]
  have ta := volume_scalar_table a ha
  have tb := volume_scalar_table b hb
  refine ⟨rfl, h0, h1, ?_, ?_, ?_⟩
  · simpa using ta
  · simpa using tb
  · simp only [coreaudio_mixer_get_volume, if_true, Bool.and_self, h0, h1,
      volume_round_trip_table a ha, volume_round_trip_table b hb]

/-- The example of the specification: `set_volume(50, 50)` on the channel elements 1 and 2,
then `get_volume`, gives `(50, 50)`. -/
theorem mixer_volume_round_trip_witness :
    coreaudio_mixer_get_volume (coreaudio_mixer_set_volume silent_device (1, 2) true true 50 50).1
        (1, 2) true true = ((50, 50), 0) :=
  (mixer_volume_round_trip silent_device 1 2 50 50 (by decide) (by decide) (by decide)
    (by decide) (by decide)).2.2.2.2.2

/-- C11: the code at the failing input. `set_volume(53, 59)` on the channel elements 1 and
2 succeeds and `get_volume` right after it succeeds and returns `(52, 58)`, not `(53, 59)`.
The scalar stored for 53 is the `Float32` nearest to `53 / 100`, which is
`0.529999971...`, below `53 / 100`; its `Float32` product with 100 is `52.999996...`,
below 53, and the conversion to `int` discards the fraction. -/
theorem mixer_volume_53_reads_52 :
    (coreaudio_mixer_set_volume silent_device (1, 2) true true 53 59).2 = 0 ∧
    coreaudio_mixer_get_volume (coreaudio_mixer_set_volume silent_device (1, 2) true true 53 59).1
        (1, 2) true true = ((52, 58), 0) ∧
    volume_scalar 53 = 8891924 / 16777216 ∧ volume_scalar 53 < 53 / 100 ∧
    f32_mul (volume_scalar 53) (f32_of_int coreaudio_max_volume) = 13893631 / 262144 ∧
    f32_mul (volume_scalar 53) (f32_of_int coreaudio_max_volume) < 53 := by
  decide!

/-! ### The floating-point model -/

theorem log2_fuel_spec (fuel : Nat) :
    ∀ n : Nat, 1 ≤ n → n ≤ fuel →
      2 ^ log2_fuel fuel n ≤ n ∧ n < 2 ^ (log2_fuel fuel n + 1) := by
  induction fuel with
  | zero => intro n h1 h2; omega
  | succ fuel ih =>
    intro n h1 h2
    by_cases hn : n < 2
    · have : n = 1 := by omega
      subst this
      simp [log2_fuel]
    · simp only [log2_fuel, if_neg hn]
      obtain ⟨i1, i2⟩ := ih (n / 2) (by omega) (by omega)
      rw [pow_succ] at i2 ⊢
      rw [pow_succ]
      constructor <;> omega

theorem floor_log2_spec (n : Nat) (h : 1 ≤ n) :
    2 ^ floor_log2 n ≤ n ∧ n < 2 ^ (floor_log2 n + 1) :=
  log2_fuel_spec n n h (le_refl n)

theorem pow2_eq_zpow (k : Int) : pow2 k = (2 : ℚ) ^ k := by
  unfold pow2
  by_cases hk : 0 ≤ k
  · rw [if_pos hk]
    obtain ⟨m, rfl⟩ := Int.eq_ofNat_of_zero_le hk
    simp
  · rw [if_neg hk]
    obtain ⟨m, hm⟩ := Int.eq_ofNat_of_zero_le (show 0 ≤ -k by omega)
    have hk2 : k = -(m : Int) := by omega
    subst hk2
    simp

/-- The exponent `binade q` of a non-zero rational brackets it:
`2 ^ binade q ≤ |q| < 2 ^ (binade q + 1)`. -/
theorem binade_spec (q : ℚ) (hq : q ≠ 0) :
    pow2 (binade q) ≤ |q| ∧ |q| < pow2 (binade q + 1) := by
  have hn : 1 ≤ q.num.natAbs := by
    have : q.num ≠ 0 := Rat.num_ne_zero.2 hq
    omega
  have hd : 1 ≤ q.den := q.den_pos
  obtain ⟨n1, n2⟩ := floor_log2_spec _ hn
  obtain ⟨d1, d2⟩ := floor_log2_spec _ hd
  have habs : |q| = (q.num.natAbs : ℚ) / (q.den : ℚ) := by
    have h1 : |(q.num : ℚ)| = ((q.num.natAbs : Nat) : ℚ) := by
      rw [Nat.cast_natAbs, Int.cast_abs]
    have h2 : |q| = |(q.num : ℚ)| / |(q.den : ℚ)| := by
      rw [← abs_div, Rat.num_div_den]
    rw [h2, h1, abs_of_nonneg (by positivity : (0 : ℚ) ≤ (q.den : ℚ))]
  have hdpos : (0 : ℚ) < (q.den : ℚ) := by exact_mod_cast hd
  have n1q : (2 : ℚ) ^ (floor_log2 q.num.natAbs) ≤ (q.num.natAbs : ℚ) := by exact_mod_cast n1
  have n2q : (q.num.natAbs : ℚ) < (2 : ℚ) ^ (floor_log2 q.num.natAbs + 1) := by
    exact_mod_cast n2
  have d1q : (2 : ℚ) ^ (floor_log2 q.den) ≤ (q.den : ℚ) := by exact_mod_cast d1
  have d2q : (q.den : ℚ) < (2 : ℚ) ^ (floor_log2 q.den + 1) := by exact_mod_cast d2
  have h2pos : ∀ k : Int, (0 : ℚ) < (2 : ℚ) ^ k := fun k => zpow_pos (by norm_num) k
  -- bounds of |q| in terms of the two digit positions
  have hlow : (2 : ℚ) ^ (((floor_log2 q.num.natAbs : Int) - (floor_log2 q.den : Int)) - 1)
      < |q| := by
    rw [habs, lt_div_iff₀ hdpos]
    have e1 : (2 : ℚ) ^ (((floor_log2 q.num.natAbs : Int) - (floor_log2 q.den : Int)) - 1)
        * (2 : ℚ) ^ ((floor_log2 q.den : Int) + 1)
        = (2 : ℚ) ^ (floor_log2 q.num.natAbs : Int) := by
      rw [← zpow_add₀ (by norm_num : (2 : ℚ) ≠ 0)]
      congr 1
      ring
    have d2z : (q.den : ℚ) < (2 : ℚ) ^ ((floor_log2 q.den : Int) + 1) := by
      have : (2 : ℚ) ^ ((floor_log2 q.den : Int) + 1) = (2 : ℚ) ^ (floor_log2 q.den + 1) := by
        norm_cast
      rw [this]; exact d2q
    have n1z : (2 : ℚ) ^ (floor_log2 q.num.natAbs : Int) ≤ (q.num.natAbs : ℚ) := by
      rw [zpow_natCast]; exact n1q
    calc (2 : ℚ) ^ (((floor_log2 q.num.natAbs : Int) - (floor_log2 q.den : Int)) - 1)
          * (q.den : ℚ)
        < (2 : ℚ) ^ (((floor_log2 q.num.natAbs : Int) - (floor_log2 q.den : Int)) - 1)
          * (2 : ℚ) ^ ((floor_log2 q.den : Int) + 1) :=
          mul_lt_mul_of_pos_left d2z (h2pos _)
      _ = (2 : ℚ) ^ (floor_log2 q.num.natAbs : Int) := e1
      _ ≤ (q.num.natAbs : ℚ) := n1z
  have hhigh : |q|
      < (2 : ℚ) ^ (((floor_log2 q.num.natAbs : Int) - (floor_log2 q.den : Int)) + 1) := by
    rw [habs, div_lt_iff₀ hdpos]
    have e1 : (2 : ℚ) ^ (((floor_log2 q.num.natAbs : Int) - (floor_log2 q.den : Int)) + 1)
        * (2 : ℚ) ^ (floor_log2 q.den : Int)
        = (2 : ℚ) ^ ((floor_log2 q.num.natAbs : Int) + 1) := by
      rw [← zpow_add₀ (by norm_num : (2 : ℚ) ≠ 0)]
      congr 1
      ring
    have d1z : (2 : ℚ) ^ (floor_log2 q.den : Int) ≤ (q.den : ℚ) := by
      rw [zpow_natCast]; exact d1q
    have n2z : (q.num.natAbs : ℚ) < (2 : ℚ) ^ ((floor_log2 q.num.natAbs : Int) + 1) := by
      have : (2 : ℚ) ^ ((floor_log2 q.num.natAbs : Int) + 1)
          = (2 : ℚ) ^ (floor_log2 q.num.natAbs + 1) := by norm_cast
      rw [this]; exact n2q
    calc (q.num.natAbs : ℚ) < (2 : ℚ) ^ ((floor_log2 q.num.natAbs : Int) + 1) := n2z
      _ = (2 : ℚ) ^ (((floor_log2 q.num.natAbs : Int) - (floor_log2 q.den : Int)) + 1)
          * (2 : ℚ) ^ (floor_log2 q.den : Int) := e1.symm
      _ ≤ (2 : ℚ) ^ (((floor_log2 q.num.natAbs : Int) - (floor_log2 q.den : Int)) + 1)
          * (q.den : ℚ) := mul_le_mul_of_nonneg_left d1z (le_of_lt (h2pos _))
  simp only [binade, pow2_eq_zpow] at hlow hhigh ⊢
  split_ifs with h
  · exact ⟨h, hhigh⟩
  · refine ⟨le_of_lt hlow, ?_⟩
    rw [sub_add_cancel]
    exact not_le.1 h

theorem round_half_even_near (m : ℚ) : |((round_half_even m : Int) : ℚ) - m| ≤ 1 / 2 := by
  have h1 : ((⌊m⌋ : Int) : ℚ) ≤ m := Int.floor_le m
  have h2 : m < ((⌊m⌋ : Int) : ℚ) + 1 := Int.lt_floor_add_one m
  unfold round_half_even
  simp only
  rw [abs_le]
  split_ifs with c1 c2 c3
  · constructor <;> linarith
  · push_cast; constructor <;> linarith
  · constructor <;> linarith
  · push_cast; constructor <;> linarith

/-- The value `f32_round q` is a whole multiple of the spacing of the binary32 numbers at
`q`, which is `2 ^ (e - 23)` for the exponent `e` of `q` and at least `2 ^ (-149)`, and lies
within half that spacing of `q`. -/
theorem f32_round_near (q : ℚ) (hq : q ≠ 0) :
    (∃ k : Int, f32_round q = (k : ℚ) * pow2 (max (binade q) (-126) - 23)) ∧
    |f32_round q - q| ≤ pow2 (max (binade q) (-126) - 23) / 2 := by
  have hpos : (0 : ℚ) < pow2 (max (binade q) (-126) - 23) := by
    rw [pow2_eq_zpow]; exact zpow_pos (by norm_num) _
  simp only [f32_round, if_neg hq]
  refine ⟨⟨_, rfl⟩, ?_⟩
  have hnear := round_half_even_near (q / pow2 (max (binade q) (-126) - 23))
  have key : ((round_half_even (q / pow2 (max (binade q) (-126) - 23)) : Int) : ℚ)
        * pow2 (max (binade q) (-126) - 23) - q
      = (((round_half_even (q / pow2 (max (binade q) (-126) - 23)) : Int) : ℚ)
          - q / pow2 (max (binade q) (-126) - 23)) * pow2 (max (binade q) (-126) - 23) := by
    field_simp
  rw [key, abs_mul, abs_of_pos hpos]
  calc |((round_half_even (q / pow2 (max (binade q) (-126) - 23)) : Int) : ℚ)
          - q / pow2 (max (binade q) (-126) - 23)| * pow2 (max (binade q) (-126) - 23)
      ≤ 1 / 2 * pow2 (max (binade q) (-126) - 23) :=
        mul_le_mul_of_nonneg_right hnear (le_of_lt hpos)
    _ = pow2 (max (binade q) (-126) - 23) / 2 := by ring

/-- The value `f64_round q` is a whole multiple of the spacing of the binary64 numbers at
`q`, which is `2 ^ (e - 52)` for the exponent `e` of `q` and at least `2 ^ (-1074)`, and lies
within half that spacing of `q`. -/
theorem f64_round_near (q : ℚ) (hq : q ≠ 0) :
    (∃ k : Int, f64_round q = (k : ℚ) * pow2 (max (binade q) (-1022) - 52)) ∧
    |f64_round q - q| ≤ pow2 (max (binade q) (-1022) - 52) / 2 := by
  have hpos : (0 : ℚ) < pow2 (max (binade q) (-1022) - 52) := by
    rw [pow2_eq_zpow]; exact zpow_pos (by norm_num) _
  simp only [f64_round, if_neg hq]
  refine ⟨⟨_, rfl⟩, ?_⟩
  have hnear := round_half_even_near (q / pow2 (max (binade q) (-1022) - 52))
  have key : ((round_half_even (q / pow2 (max (binade q) (-1022) - 52)) : Int) : ℚ)
        * pow2 (max (binade q) (-1022) - 52) - q
      = (((round_half_even (q / pow2 (max (binade q) (-1022) - 52)) : Int) : ℚ)
          - q / pow2 (max (binade q) (-1022) - 52)) * pow2 (max (binade q) (-1022) - 52) := by
    field_simp
  rw [key, abs_mul, abs_of_pos hpos]
  calc |((round_half_even (q / pow2 (max (binade q) (-1022) - 52)) : Int) : ℚ)
          - q / pow2 (max (binade q) (-1022) - 52)| * pow2 (max (binade q) (-1022) - 52)
      ≤ 1 / 2 * pow2 (max (binade q) (-1022) - 52) :=
        mul_le_mul_of_nonneg_right hnear (le_of_lt hpos)
    _ = pow2 (max (binade q) (-1022) - 52) / 2 := by ring

end CoreAudio
